import Mathlib

/-!
Verification of the dice geometry/orientation engine (`diceEngine.js`).

The engine's algorithms are embedded shallowly:
* vectors are triples of rationals (`V3`) — the algorithms only ever compare
  dot products, cross products and coordinates, all of which are exact here;
* a logical face (`Face`) carries centroid, outward normal and boundary
  vertices, as in the source;
* the face-numbering assigner `computeFaceNumbers`, the greedy opposite-pair
  loop, the D10 azimuth sort and the number assignment loops are translated
  line by line from the source;
* JavaScript `null` / `undefined` results become `Option`.

The pentagonal-trapezohedron construction (`createD10Geometry`) computes with
`cos`/`sin` of multiples of 36 degrees, so its vertex data is embedded over the
real numbers in a separate section.
-/

namespace Dice

/-- A 3-component vector with exact rational coordinates, standing for a
`THREE.Vector3`. -/
structure V3 where
  x : ℚ
  y : ℚ
  z : ℚ
  deriving DecidableEq

namespace V3

/-- `a.dot(b)` of `THREE.Vector3`. -/
def dot (a b : V3) : ℚ := a.x * b.x + a.y * b.y + a.z * b.z

/-- `new THREE.Vector3().crossVectors(a, b)`. -/
def cross (a b : V3) : V3 :=
  ⟨a.y * b.z - a.z * b.y, a.z * b.x - a.x * b.z, a.x * b.y - a.y * b.x⟩

/-- `a.sub(b)` (componentwise difference). -/
def sub (a b : V3) : V3 := ⟨a.x - b.x, a.y - b.y, a.z - b.z⟩

/-- `v.multiplyScalar(c)`. -/
def smul (c : ℚ) (a : V3) : V3 := ⟨c * a.x, c * a.y, c * a.z⟩

/-- `a.addScaledVector(b, c)`. -/
def addScaled (a : V3) (b : V3) (c : ℚ) : V3 :=
  ⟨a.x + c * b.x, a.y + c * b.y, a.z + c * b.z⟩

/-- The zero vector. -/
def zero : V3 := ⟨0, 0, 0⟩

end V3

/-- A reconstructed logical face: `{ centroid, normal, verts }` as produced by
`computeFaces`. -/
structure Face where
  centroid : V3
  normal : V3
  verts : List V3
  deriving DecidableEq

/-- Placeholder face used to totalize list indexing (never hit on the index
ranges the algorithms use). -/
def dfltFace : Face := ⟨V3.zero, V3.zero, []⟩

/-- Normal of the `i`-th face of a face list. -/
def nrm (faces : List Face) (i : ℕ) : V3 := (faces.getD i dfltFace).normal

/-- Centroid of the `i`-th face of a face list. -/
def ctr (faces : List Face) (i : ℕ) : V3 := (faces.getD i dfltFace).centroid

/-- `D6_NUMBERS = [1, 6, 2, 5, 3, 4]` (source constant). -/
def D6_NUMBERS : List ℤ := [1, 6, 2, 5, 3, 4]

/-- The anti-parallel test of the pairing loop:
`faces[i].normal.dot(faces[j].normal) < -0.99`. -/
def anti (faces : List Face) (i j : ℕ) : Prop :=
  V3.dot (nrm faces i) (nrm faces j) < -(99 / 100)

instance (faces : List Face) (i j : ℕ) : Decidable (anti faces i j) := by
  unfold anti; infer_instance

/-- Inner loop of the opposite-pair search (source lines 302-309): among the
candidate indices `js` (the source iterates `j = i+1, ..., n-1`), find the
first one that is not in `used` and whose normal is anti-parallel to that of
face `i`. -/
def scanPartner (faces : List Face) (used : List ℕ) (i : ℕ) : List ℕ → Option ℕ
  | [] => none
  | j :: js => if j ∉ used ∧ anti faces i j then some j else scanPartner faces used i js

/-- Outer loop of the opposite-pair search (source lines 298-315), iterating
over the face indices `is` (the source iterates `i = 0, ..., n-1`).  A pair
`[i, j]` of the source becomes `(i, some j)`, an unpaired `[i, -1]` becomes
`(i, none)`; `used` is the source's `used` set. -/
def pairLoop (faces : List Face) : List ℕ → List ℕ → List (ℕ × Option ℕ)
  | [], _ => []
  | i :: is, used =>
    if i ∈ used then pairLoop faces is used
    else
      match scanPartner faces used i (List.range' (i + 1) (faces.length - (i + 1))) with
      | some j => (i, some j) :: pairLoop faces is (i :: j :: used)
      | none => (i, none) :: pairLoop faces is (i :: used)

/-- The complete list of greedy opposite pairs of a face list. -/
def buildPairs (faces : List Face) : List (ℕ × Option ℕ) :=
  pairLoop faces (List.range faces.length) []

/-- All slot indices (first components and present partners) of a pair list,
in order.  The numbering loops write exactly at these indices. -/
def slotsOf (P : List (ℕ × Option ℕ)) : List ℕ :=
  P.flatMap (fun p => p.1 :: p.2.toList)

/-- Classify the direction `(x, z)` by which constant-`atan2` tier it is in:
tier 0 is the open lower half plane (`atan2 ∈ (-pi, 0)`), tier 1 the
non-negative x-axis (`atan2 = 0`), tier 2 the open upper half plane
(`atan2 ∈ (0, pi)`) and tier 3 the negative x-axis (`atan2 = pi`).  Tiers are
ordered exactly as the corresponding angle ranges. -/
def azTier (x z : ℚ) : ℕ :=
  if z < 0 then 0 else if 0 < z then 2 else if 0 ≤ x then 1 else 3

/-- Exact decision of `atan2(z1, x1) <= atan2(z2, x2)`, the ascending order the
source's comparator `aA - bA` (lines 323-327) sorts by.  Inside an open half
plane the angle order coincides with the sign of the planar cross product
`x1*z2 - z1*x2`, and on the two axis tiers the angle is constant. -/
def azLe (x1 z1 x2 z2 : ℚ) : Prop :=
  azTier x1 z1 < azTier x2 z2 ∨
    (azTier x1 z1 = azTier x2 z2 ∧
      ((azTier x1 z1 = 0 ∨ azTier x1 z1 = 2) → 0 ≤ x1 * z2 - z1 * x2))

instance (x1 z1 x2 z2 : ℚ) : Decidable (azLe x1 z1 x2 z2) := by
  unfold azLe; infer_instance

/-- Comparator on greedy pairs used by the D10 sort: compares the azimuth
`atan2(centroid.z, centroid.x)` of the faces indexed by the first slots. -/
def pairAzLe (faces : List Face) (p q : ℕ × Option ℕ) : Prop :=
  azLe (ctr faces p.1).x (ctr faces p.1).z (ctr faces q.1).x (ctr faces q.1).z

instance (faces : List Face) : DecidableRel (pairAzLe faces) := by
  intro p q; unfold pairAzLe; infer_instance

/-- The D10 pair reorientation (source lines 318-322): if the pair is complete
and the first face's centroid is lower, swap the slots so the face nearer the
top pole comes first. -/
def d10Flip (faces : List Face) (p : ℕ × Option ℕ) : ℕ × Option ℕ :=
  match p with
  | (a, some b) => if (ctr faces a).y < (ctr faces b).y then (b, some a) else (a, some b)
  | (a, none) => (a, none)

/-- The number-assignment loop (source lines 328-331 with `val k = 2k+1`, and
lines 335-338 with `val k = k+1`): pair `k` writes `val k` at its first slot
and `target - val k` at its partner slot, if any. -/
def assignLoop (target : ℤ) (val : ℕ → ℤ) :
    List (ℕ × Option ℕ) → ℕ → List ℤ → List ℤ
  | [], _, nums => nums
  | p :: ps, k, nums =>
    let nums1 := nums.set p.1 (val k)
    let nums2 := match p.2 with
      | some j => nums1.set j (target - val k)
      | none => nums1
    assignLoop target val ps (k + 1) nums2

/-- The D10 pair list (source lines 318-327): the greedy pairs, each
reoriented so the face nearer the top pole comes first (`d10Flip`), sorted by
the azimuth of that face.  `Array.prototype.sort` is specified to be stable,
and every stable sort by the same total preorder produces the same list, so
the stable `List.insertionSort` by the azimuth order models the source's
`pairs.sort((a, b) => aA - bA)`. -/
def d10Pairs (faces : List Face) : List (ℕ × Option ℕ) :=
  let pairs := buildPairs faces
  let oriented := pairs.map (d10Flip faces)
  List.insertionSort (pairAzLe faces) oriented

/-- `computeFaceNumbers(faces, sides)` (source lines 289-340): hardcoded D6
and D4 sequences, then the D10 branch (odd numbers `2k+1` over the sorted
`d10Pairs`, partners `target - (2k+1)`) and the generic branch (`k+1` over the
greedy pairs, partners `target - (k+1)`). -/
def computeFaceNumbers (faces : List Face) (sides : ℕ) : List ℤ :=
  if sides = 6 then D6_NUMBERS
  else if sides = 4 then [1, 2, 3, 4]
  else
    let n := faces.length
    let target : ℤ := (sides : ℤ) + 1
    if sides = 10 then
      assignLoop target (fun k => 2 * (k : ℤ) + 1) (d10Pairs faces) 0 (List.replicate n 0)
    else
      assignLoop target (fun k => (k : ℤ) + 1) (buildPairs faces) 0 (List.replicate n 0)

/-! ### Color parsing (`parseColor`, source lines 23-41)

JavaScript values reaching `parseColor` are numbers, strings, or anything else;
`JSColor` models exactly that split.  What `parseColor` can return is a
number, the number `NaN` (the result of `parseInt` on a digit-free string),
or — because `TAILWIND_MAP[color]` walks the prototype chain of the object
literal — a function or object inherited from `Object.prototype`; `JSVal`
models exactly those results. -/

/-- The run-time type split `typeof color` performs in `parseColor`. -/
inductive JSColor where
  | num (v : ℚ)
  | str (s : String)
  | other

/-- A value `parseColor` can return: a number, `NaN`, or a function/object
inherited from `Object.prototype` (identified by its property name). -/
inductive JSVal where
  | num (v : ℚ)
  | nan
  | fn (s : String)
  deriving DecidableEq

/-- `TAILWIND_MAP` (source lines 23-32). -/
def TAILWIND_MAP : List (String × ℚ) :=
  [("bg-purple-500", 0xa855f7), ("bg-blue-500", 0x3b82f6), ("bg-green-500", 0x22c55e),
   ("bg-yellow-500", 0xeab308), ("bg-orange-500", 0xf97316), ("bg-red-500", 0xef4444),
   ("bg-pink-500", 0xec4899), ("bg-gray-500", 0x6b7280)]

/-- The property names every plain object literal inherits from
`Object.prototype`, so `TAILWIND_MAP[color]` finds them even though they are
not own entries of the table.  Each holds a function (for `__proto__`, an
object), and every one of them is truthy. -/
def OBJECT_PROTO_KEYS : List String :=
  ["constructor", "hasOwnProperty", "isPrototypeOf", "propertyIsEnumerable",
   "toLocaleString", "toString", "valueOf", "__defineGetter__",
   "__defineSetter__", "__lookupGetter__", "__lookupSetter__", "__proto__"]

/-- Property lookup `TAILWIND_MAP[color]` as JavaScript evaluates it: first
the object's own eight entries, then the prototype chain, where every
`Object.prototype` property name yields the inherited function; any other
key is `undefined` (`none`). -/
def twGet (s : String) : Option JSVal :=
  match TAILWIND_MAP.find? (fun p => p.1 == s) with
  | some p => some (.num p.2)
  | none => if s ∈ OBJECT_PROTO_KEYS then some (.fn s) else none

/-- Numeric value of a hexadecimal digit, case-insensitive. -/
def hexVal (c : Char) : Option ℕ :=
  if '0' ≤ c ∧ c ≤ '9' then some (c.toNat - '0'.toNat)
  else if 'a' ≤ c ∧ c ≤ 'f' then some (c.toNat - 'a'.toNat + 10)
  else if 'A' ≤ c ∧ c ≤ 'F' then some (c.toNat - 'A'.toNat + 10)
  else none

/-- Whitespace skipped by `parseInt` (the common JavaScript whitespace
characters). -/
def jsSpace (c : Char) : Bool := c = ' ' ∨ c = '\t' ∨ c = '\n' ∨ c = '\r'

/-- `parseInt(s, 16)`: skip whitespace, take an optional sign and an optional
`0x`/`0X` marker, then read the longest run of hex digits; no digits means
`NaN` (`none`), otherwise the signed value of the digit run. -/
def jsParseIntHex (cs : List Char) : Option ℚ :=
  let cs1 := cs.dropWhile jsSpace
  let sgn : Bool × List Char :=
    match cs1 with
    | '-' :: rest => (true, rest)
    | '+' :: rest => (false, rest)
    | _ => (false, cs1)
  let cs2 : List Char :=
    match sgn.2 with
    | '0' :: 'x' :: rest => rest
    | '0' :: 'X' :: rest => rest
    | _ => sgn.2
  let digits := cs2.takeWhile (fun c => (hexVal c).isSome)
  if digits.isEmpty then none
  else
    let v : ℕ := digits.foldl (fun acc c => 16 * acc + (hexVal c).getD 0) 0
    some (if sgn.1 then -(v : ℚ) else (v : ℚ))

/-- The gray fallback `0x6b7280`. -/
def GRAY_DEFAULT : ℚ := 0x6b7280

/-- `parseInt` yields a number or `NaN`. -/
def numOrNan : Option ℚ → JSVal
  | some v => .num v
  | none => .nan

/-- `parseColor(color)` (source lines 34-41).  A number is returned as is; a
string starting with `#` goes through `parseInt(color.slice(1), 16)`; then
`TAILWIND_MAP[color]` is tested for truthiness and, when truthy, returned —
a non-zero number from the table's own entries (hence the `v = 0` guard for
the falsy number zero) or a function inherited from `Object.prototype`;
everything else falls through to the gray default. -/
def parseColor : JSColor → JSVal
  | .num v => .num v
  | .str s =>
    if s.data.head? = some '#' then numOrNan (jsParseIntHex (s.data.drop 1))
    else
      match twGet s with
      | some (.num v) => if v = 0 then .num GRAY_DEFAULT else .num v
      | some .nan => .num GRAY_DEFAULT
      | some (.fn f) => .fn f
      | none => .num GRAY_DEFAULT
  | .other => .num GRAY_DEFAULT

/-! ### Settle orientation (`faceSettleQuat` / `settleQuat`, source lines 347-450)

`faceSettleQuat` builds an orthonormal basis `(xAxis, faceUp, n)` and returns
the quaternion of that basis matrix, conjugated.  A unit quaternion and its
rotation matrix encode the same rotation, and conjugation corresponds to
matrix transposition, so the orientation is embedded as the row matrix
`(xAxis, faceUp, n)` — the transpose of `makeBasis(xAxis, faceUp, n)` —
instead of going through `Quaternion.setFromRotationMatrix`.  The square roots
taken by `.normalize()` have no exact rational form, so normalization receives
the square-root operation as an explicit parameter `sq`. -/

/-- Rotation produced by the solver, as the three rows `(xAxis, faceUp, n)`.
Applying it to a vector `v` yields `(xAxis ⬝ v, faceUp ⬝ v, n ⬝ v)`. -/
structure M3 where
  r1 : V3
  r2 : V3
  r3 : V3
  deriving DecidableEq

/-- `v.normalize()` of `THREE.Vector3`: divide by `length() || 1`, with the
length computed by the supplied square root. -/
def vnormalize (sq : ℚ → ℚ) (v : V3) : V3 :=
  let l := sq (V3.dot v v)
  V3.smul (1 / (if l = 0 then 1 else l)) v

/-- `Math.abs`. -/
def jsAbs (q : ℚ) : ℚ := if q < 0 then -q else q

/-- Reference "world up" selection (source lines 350-351): `(0,1,0)`, switched
to `(0,0,1)` when `Math.abs(n.dot(ref)) > 0.99`. -/
def settleRef (n : V3) : V3 :=
  if jsAbs (V3.dot n ⟨0, 1, 0⟩) > 99 / 100 then ⟨0, 0, 1⟩ else ⟨0, 1, 0⟩

/-- The reference vector projected onto the plane perpendicular to `n`
(source line 352 before its `.normalize()`):
`ref.clone().addScaledVector(n, -ref.dot(n))`. -/
def refUpRaw (n : V3) : V3 :=
  V3.addScaled (settleRef n) n (-(V3.dot (settleRef n) n))

/-- `faceSettleQuat(face, sides)` (source lines 347-381), with the orientation
in row-matrix form as explained above. -/
def faceSettleQuat (sq : ℚ → ℚ) (face : Face) (sides : ℕ) : M3 :=
  let n := vnormalize sq face.normal
  let refUp := vnormalize sq (refUpRaw n)
  let faceUp :=
    if sides = 10 then
      let H : ℚ := 12 / 10
      let pole : V3 := if face.centroid.y > 0 then ⟨0, H, 0⟩ else ⟨0, -H, 0⟩
      let toPole := V3.sub pole face.centroid
      let toPole1 := vnormalize sq (V3.addScaled toPole n (-(V3.dot toPole n)))
      V3.smul (-1) toPole1
    else if sides ≠ 6 ∧ 3 ≤ face.verts.length then
      (face.verts.foldl
        (fun acc v =>
          let dir := vnormalize sq (V3.sub v face.centroid)
          let d := V3.dot dir refUp
          match acc.2 with
          | none => (dir, some d)
          | some bd => if d > bd then (dir, some d) else acc)
        (refUp, (none : Option ℚ))).1
    else refUp
  let xAxis := vnormalize sq (V3.cross faceUp n)
  ⟨xAxis, faceUp, n⟩

/-- The parts of a die mesh that `settleQuat` reads:
`mesh.userData.faces` and `mesh.userData.numberToFace`, each possibly absent
(unlabeled dice never set them). -/
structure DieMesh where
  faces : Option (List Face)
  numberToFace : Option (List (ℤ × ℕ))

/-- Lookup in the `numberToFace` object: the object is a record of
assignments `numberToFace[num] = idx`, so a later assignment to the same key
shadows an earlier one. -/
def jsLookup (m : List (ℤ × ℕ)) (k : ℤ) : Option ℕ :=
  m.foldl (fun acc p => if p.1 = k then some p.2 else acc) none

/-- `settleQuat(mesh, result, sides)` (source lines 443-450).  The source also
tests `fi < 0`, which cannot fire here because stored face indices are natural
numbers; the remaining guards are translated one to one.  The function only
reads the mesh, so the embedding takes it as a pure argument. -/
def settleQuat (sq : ℚ → ℚ) (mesh : DieMesh) (result : ℤ) (sides : ℕ) : Option M3 :=
  match mesh.faces, mesh.numberToFace with
  | some faces, some ntf =>
    match jsLookup ntf result with
    | none => none
    | some fi =>
      if fi < faces.length then some (faceSettleQuat sq (faces.getD fi dfltFace) sides)
      else none
  | _, _ => none

/-! ### The pentagonal trapezohedron (`createD10Geometry`, source lines 127-161)

The vertex coordinates use `cos`/`sin` of multiples of `pi/5`, so this part of
the embedding lives over the real numbers. -/

/-- Real 3-vector for the trapezohedron vertex data. -/
structure RV3 where
  x : ℝ
  y : ℝ
  z : ℝ

/-- Real cross product (triangle normal direction). -/
noncomputable def rcross (a b : RV3) : RV3 :=
  ⟨a.y * b.z - a.z * b.y, a.z * b.x - a.x * b.z, a.x * b.y - a.y * b.x⟩

/-- Real dot product. -/
noncomputable def rdot (a b : RV3) : ℝ := a.x * b.x + a.y * b.y + a.z * b.z

/-- Componentwise difference. -/
noncomputable def rsub (a b : RV3) : RV3 := ⟨a.x - b.x, a.y - b.y, a.z - b.z⟩

/-- The real zero vector. -/
def rzero : RV3 := ⟨0, 0, 0⟩

/-- Scalar triple product `(a × b) ⬝ c`; it vanishes exactly when the three
vectors are coplanar through the origin. -/
noncomputable def rtriple (a b c : RV3) : ℝ := rdot (rcross a b) c

/-- `H = radius` (source line 128). -/
def d10H (radius : ℝ) : ℝ := radius

/-- `h = H * (1 - cos(pi/5)) / (1 + cos(pi/5))` (source line 129). -/
noncomputable def d10h (radius : ℝ) : ℝ :=
  d10H radius * (1 - Real.cos (Real.pi / 5)) / (1 + Real.cos (Real.pi / 5))

/-- `r = radius * 0.85` (source line 130). -/
noncomputable def d10r (radius : ℝ) : ℝ := radius * (85 / 100)

/-- Top pole `(0, H, 0)`. -/
noncomputable def d10top (radius : ℝ) : RV3 := ⟨0, d10H radius, 0⟩

/-- Bottom pole `(0, -H, 0)`. -/
noncomputable def d10bot (radius : ℝ) : RV3 := ⟨0, -d10H radius, 0⟩

/-- Upper-ring angle `aU = k * 2 * pi / 5` (source line 138). -/
noncomputable def d10aU (k : ℕ) : ℝ := (k : ℝ) * 2 * Real.pi / 5

/-- Lower-ring angle `aL = aU + pi / 5` (source line 139): the lower ring is
rotated by 36 degrees relative to the upper ring. -/
noncomputable def d10aL (k : ℕ) : ℝ := d10aU k + Real.pi / 5

/-- Upper-ring vertex `[r * cos(aU), h, r * sin(aU)]`. -/
noncomputable def d10upper (radius : ℝ) (k : ℕ) : RV3 :=
  ⟨d10r radius * Real.cos (d10aU k), d10h radius, d10r radius * Real.sin (d10aU k)⟩

/-- Lower-ring vertex `[r * cos(aL), -h, r * sin(aL)]`. -/
noncomputable def d10lower (radius : ℝ) (k : ℕ) : RV3 :=
  ⟨d10r radius * Real.cos (d10aL k), -d10h radius, d10r radius * Real.sin (d10aL k)⟩

/-- Outward normal direction of the triangle `(a, b, c)`:
`(b - a) × (c - a)`. -/
noncomputable def triNormal (a b c : RV3) : RV3 := rcross (rsub b a) (rsub c a)

/-! ### Concrete inputs used by witnesses and counterexamples -/

/-- Componentwise negation (for building antipodal normals). -/
def vneg (v : V3) : V3 := ⟨-v.x, -v.y, -v.z⟩

/-- A face with the given normal and zero centroid. -/
def nFace (n : V3) : Face := ⟨V3.zero, n, []⟩

/-- Eight faces whose unit normals form four exactly antipodal pairs, with all
cross-pair dot products well inside the tolerance. -/
def exFaces8 : List Face :=
  [nFace ⟨1, 0, 0⟩, nFace (vneg ⟨1, 0, 0⟩),
   nFace ⟨0, 1, 0⟩, nFace (vneg ⟨0, 1, 0⟩),
   nFace ⟨0, 0, 1⟩, nFace (vneg ⟨0, 0, 1⟩),
   nFace ⟨3/5, 4/5, 0⟩, nFace (vneg ⟨3/5, 4/5, 0⟩)]

/-- A face with the given normal and centroid. -/
def ncFace (n : V3) (c : V3) : Face := ⟨c, n, []⟩

/-- Ten faces in five exactly antipodal unit-normal pairs; in each pair the
first face's centroid has `y = 1` and the second `y = -1`, and the five top
centroids have pairwise distinct azimuths. -/
def exFaces10 : List Face :=
  [ncFace ⟨1, 0, 0⟩ ⟨1, 1, 0⟩, ncFace (vneg ⟨1, 0, 0⟩) ⟨1, -1, 0⟩,
   ncFace ⟨0, 1, 0⟩ ⟨0, 1, 1⟩, ncFace (vneg ⟨0, 1, 0⟩) ⟨0, -1, 1⟩,
   ncFace ⟨0, 0, 1⟩ ⟨-1, 1, 1⟩, ncFace (vneg ⟨0, 0, 1⟩) ⟨-1, -1, 1⟩,
   ncFace ⟨3/5, 4/5, 0⟩ ⟨0, 1, -1⟩, ncFace (vneg ⟨3/5, 4/5, 0⟩) ⟨0, -1, -1⟩,
   ncFace ⟨0, 3/5, 4/5⟩ ⟨-1, 1, 0⟩, ncFace (vneg ⟨0, 3/5, 4/5⟩) ⟨-1, -1, 0⟩]

/-- Six arbitrary faces (the D6 branch ignores the geometry entirely). -/
def exFaces6 : List Face := List.replicate 6 dfltFace

/-- The reference-selection rule exactly as claim C7 words it: switch to
`(0,0,1)` only when the dot product itself exceeds `0.99` — no absolute
value.  Kept separate from `settleRef` (which follows the source) so the two
can be compared. -/
def settleRefClaim (n : V3) : V3 :=
  if V3.dot n ⟨0, 1, 0⟩ > 99 / 100 then ⟨0, 0, 1⟩ else ⟨0, 1, 0⟩

/-! ## Theorems -/

/-- Componentwise characterization of the zero vector via the dot product. -/
theorem V3.ne_zero_of_dot_pos {a : V3} (h : 0 < V3.dot a a) : a ≠ V3.zero := by
  rintro rfl
  simp [V3.dot, V3.zero] at h

/-- The embedded `Math.abs` agrees with the mathematical absolute value. -/
theorem jsAbs_eq_abs (q : ℚ) : jsAbs q = |q| := by
  unfold jsAbs
  by_cases h : q < 0
  · rw [if_pos h, abs_of_neg h]
  · rw [if_neg h, abs_of_nonneg (not_lt.mp h)]

/-- Lagrange identity for the embedded cross product. -/
theorem V3.dot_cross_self (a b : V3) :
    V3.dot (V3.cross a b) (V3.cross a b) =
      V3.dot a a * V3.dot b b - V3.dot a b * V3.dot a b := by
  obtain ⟨ax, ay, az⟩ := a
  obtain ⟨b1, b2, b3⟩ := b
  simp only [V3.dot, V3.cross]
  ring

/-- The anti-parallel relation is symmetric (the dot product commutes). -/
theorem anti_symm {faces : List Face} {i j : ℕ} (h : anti faces i j) : anti faces j i := by
  unfold anti at h ⊢
  have : V3.dot (nrm faces j) (nrm faces i) = V3.dot (nrm faces i) (nrm faces j) := by
    unfold V3.dot; ring
  rw [this]; exact h

/-- `slotsOf` on a cons. -/
theorem slotsOf_cons (p : ℕ × Option ℕ) (P : List (ℕ × Option ℕ)) :
    slotsOf (p :: P) = p.1 :: (p.2.toList ++ slotsOf P) := by
  simp [slotsOf]

/-- A successful partner scan returns a candidate that is in the scanned list,
unused, and anti-parallel to face `i`. -/
theorem scanPartner_mem {faces : List Face} {used : List ℕ} {i j : ℕ} {js : List ℕ}
    (h : scanPartner faces used i js = some j) :
    j ∈ js ∧ j ∉ used ∧ anti faces i j := by
  induction js with
  | nil => simp [scanPartner] at h
  | cons a as ih =>
    by_cases ha : a ∉ used ∧ anti faces i a
    · rw [scanPartner, if_pos ha] at h
      injection h with h'
      subst h'
      exact ⟨List.mem_cons_self _ _, ha.1, ha.2⟩
    · rw [scanPartner, if_neg ha] at h
      obtain ⟨h1, h2, h3⟩ := ih h
      exact ⟨List.mem_cons_of_mem a h1, h2, h3⟩

/-- If the scanned list contains exactly one anti-parallel candidate and that
candidate is unused, the scan returns it. -/
theorem scanPartner_finds {faces : List Face} {used : List ℕ} {i j : ℕ} {js : List ℕ}
    (hj : j ∈ js) (hju : j ∉ used) (hja : anti faces i j)
    (honly : ∀ k ∈ js, anti faces i k → k = j) :
    scanPartner faces used i js = some j := by
  induction js with
  | nil => cases hj
  | cons a as ih =>
    by_cases ha : a ∉ used ∧ anti faces i a
    · have haj : a = j := honly a (List.mem_cons_self a as) ha.2
      rw [scanPartner, if_pos ha, haj]
    · rw [scanPartner, if_neg ha]
      apply ih
      · rcases List.mem_cons.mp hj with rfl | h
        · exact absurd ⟨hju, hja⟩ ha
        · exact h
      · exact fun k hk => honly k (List.mem_cons_of_mem _ hk)

/-- Each index in the remaining range that is not yet used ends up in exactly
one slot of the pairs the greedy loop emits; used or out-of-range indices end
up in none. -/
theorem pairLoop_count (faces : List Face) :
    ∀ (k i0 : ℕ) (used : List ℕ), faces.length - i0 = k →
      ∀ m : ℕ,
        (slotsOf (pairLoop faces (List.range' i0 (faces.length - i0)) used)).count m
          = if i0 ≤ m ∧ m < faces.length ∧ m ∉ used then 1 else 0 := by
  intro k
  induction k with
  | zero =>
    intro i0 used hk m
    rw [hk]
    simp only [List.range'_zero, pairLoop, slotsOf, List.flatMap_nil, List.count_nil]
    split_ifs with h
    · omega
    · rfl
  | succ k ih =>
    intro i0 used hk m
    have hi0 : i0 < faces.length := by omega
    rw [hk, List.range'_succ]
    simp only [pairLoop]
    by_cases hmem : i0 ∈ used
    · rw [if_pos hmem]
      have hrec := ih (i0 + 1) used (by omega) m
      rw [show faces.length - (i0 + 1) = k from by omega] at hrec
      rw [hrec]
      have hiff : (i0 + 1 ≤ m ∧ m < faces.length ∧ m ∉ used) ↔
          (i0 ≤ m ∧ m < faces.length ∧ m ∉ used) := by
        constructor
        · rintro ⟨h1, h2, h3⟩; exact ⟨by omega, h2, h3⟩
        · rintro ⟨h1, h2, h3⟩
          refine ⟨?_, h2, h3⟩
          rcases Nat.eq_or_lt_of_le h1 with heq | h
          · exact absurd (heq ▸ hmem) h3
          · omega
      rw [if_congr hiff rfl rfl]
    · rw [if_neg hmem]
      cases hscan : scanPartner faces used i0 (List.range' (i0 + 1) (faces.length - (i0 + 1))) with
      | some j =>
        obtain ⟨hjmem, hju, _⟩ := scanPartner_mem hscan
        have hj1 : i0 + 1 ≤ j ∧ j < faces.length := by
          have := List.mem_range'_1.mp hjmem
          omega
        rw [slotsOf_cons]
        have hrec := ih (i0 + 1) (i0 :: j :: used) (by omega) m
        rw [show faces.length - (i0 + 1) = k from by omega] at hrec
        simp only [Option.toList_some, List.singleton_append, List.count_cons, hrec,
          beq_iff_eq]
        by_cases hmi : m = i0
        · subst hmi
          rw [if_neg (show ¬ (m + 1 ≤ m ∧ m < faces.length ∧ m ∉ m :: j :: used) from
              fun h => by omega),
            if_neg (show ¬ j = m from by omega), if_pos rfl,
            if_pos (show m ≤ m ∧ m < faces.length ∧ m ∉ used from ⟨le_refl _, hi0, hmem⟩)]
        · by_cases hmj : m = j
          · rw [if_neg (show ¬ (i0 + 1 ≤ m ∧ m < faces.length ∧ m ∉ i0 :: j :: used) from
                fun h => h.2.2 (by simp [List.mem_cons, hmj])),
              if_pos (show j = m from hmj.symm),
              if_neg (show ¬ i0 = m from fun h => hmi h.symm),
              if_pos (show i0 ≤ m ∧ m < faces.length ∧ m ∉ used from
                ⟨by omega, by omega, fun hc => hju (hmj ▸ hc)⟩)]
          · rw [if_neg (show ¬ j = m from fun h => hmj h.symm),
              if_neg (show ¬ i0 = m from fun h => hmi h.symm)]
            by_cases hmu : m ∈ used
            · rw [if_neg (show ¬ (i0 + 1 ≤ m ∧ m < faces.length ∧ m ∉ i0 :: j :: used) from
                  fun h => h.2.2 (List.mem_cons_of_mem _ (List.mem_cons_of_mem _ hmu))),
                if_neg (show ¬ (i0 ≤ m ∧ m < faces.length ∧ m ∉ used) from fun h => h.2.2 hmu)]
            · by_cases harr : i0 + 1 ≤ m ∧ m < faces.length
              · rw [if_pos (show i0 + 1 ≤ m ∧ m < faces.length ∧ m ∉ i0 :: j :: used from
                    ⟨harr.1, harr.2, by simp [List.mem_cons, hmi, hmj, hmu]⟩),
                  if_pos (show i0 ≤ m ∧ m < faces.length ∧ m ∉ used from
                    ⟨by omega, harr.2, hmu⟩)]
              · rw [if_neg (show ¬ (i0 + 1 ≤ m ∧ m < faces.length ∧ m ∉ i0 :: j :: used) from
                    fun h => harr ⟨h.1, h.2.1⟩),
                  if_neg (show ¬ (i0 ≤ m ∧ m < faces.length ∧ m ∉ used) from
                    fun h => harr ⟨by omega, h.2.1⟩)]
      | none =>
        rw [slotsOf_cons]
        have hrec := ih (i0 + 1) (i0 :: used) (by omega) m
        rw [show faces.length - (i0 + 1) = k from by omega] at hrec
        simp only [Option.toList_none, List.nil_append, List.count_cons, hrec, beq_iff_eq]
        by_cases hmi : m = i0
        · subst hmi
          rw [if_neg (show ¬ (m + 1 ≤ m ∧ m < faces.length ∧ m ∉ m :: used) from
              fun h => by omega), if_pos rfl,
            if_pos (show m ≤ m ∧ m < faces.length ∧ m ∉ used from ⟨le_refl _, hi0, hmem⟩)]
        · rw [if_neg (show ¬ i0 = m from fun h => hmi h.symm)]
          by_cases hmu : m ∈ used
          · rw [if_neg (show ¬ (i0 + 1 ≤ m ∧ m < faces.length ∧ m ∉ i0 :: used) from
                fun h => h.2.2 (List.mem_cons_of_mem _ hmu)),
              if_neg (show ¬ (i0 ≤ m ∧ m < faces.length ∧ m ∉ used) from fun h => h.2.2 hmu)]
          · by_cases harr : i0 + 1 ≤ m ∧ m < faces.length
            · rw [if_pos (show i0 + 1 ≤ m ∧ m < faces.length ∧ m ∉ i0 :: used from
                  ⟨harr.1, harr.2, by simp [List.mem_cons, hmi, hmu]⟩),
                if_pos (show i0 ≤ m ∧ m < faces.length ∧ m ∉ used from
                  ⟨by omega, harr.2, hmu⟩)]
            · rw [if_neg (show ¬ (i0 + 1 ≤ m ∧ m < faces.length ∧ m ∉ i0 :: used) from
                  fun h => harr ⟨h.1, h.2.1⟩),
                if_neg (show ¬ (i0 ≤ m ∧ m < faces.length ∧ m ∉ used) from
                  fun h => harr ⟨by omega, h.2.1⟩)]

/-- Specialization of `pairLoop_count` to `buildPairs`: every face index lands
in exactly one slot of the greedy pair list. -/
theorem buildPairs_count (faces : List Face) (m : ℕ) :
    (slotsOf (buildPairs faces)).count m = if m < faces.length then 1 else 0 := by
  unfold buildPairs
  rw [List.range_eq_range', show List.range' 0 faces.length =
    List.range' 0 (faces.length - 0) from by rw [Nat.sub_zero]]
  rw [pairLoop_count faces (faces.length - 0) 0 [] rfl m]
  have : (0 ≤ m ∧ m < faces.length ∧ m ∉ ([] : List ℕ)) ↔ m < faces.length := by
    simp
  rw [if_congr this rfl rfl]

/-- A perfect anti-parallel matching `σ` on the faces: every face is matched
to a distinct face with anti-parallel normal, the matching is involutive, and
no other face is anti-parallel to it. -/
def IsMatching (faces : List Face) (σ : ℕ → ℕ) : Prop :=
  (∀ m, m < faces.length →
    σ m < faces.length ∧ σ m ≠ m ∧ anti faces m (σ m) ∧ σ (σ m) = m) ∧
  (∀ m j, m < faces.length → j < faces.length → anti faces m j → j = σ m)

/-- Under a perfect matching, the greedy loop pairs each index `m` with
`σ m > m`, in increasing order of `m`, and leaves nothing unpaired. -/
theorem pairLoop_matched (faces : List Face) (σ : ℕ → ℕ) (hM : IsMatching faces σ) :
    ∀ (k i0 : ℕ) (used : List ℕ), faces.length - i0 = k →
      (∀ m, i0 ≤ m → m < faces.length → (m ∈ used ↔ σ m < i0)) →
      pairLoop faces (List.range' i0 (faces.length - i0)) used
        = ((List.range' i0 (faces.length - i0)).filter (fun m => decide (m < σ m))).map
            (fun m => (m, some (σ m))) := by
  obtain ⟨hσ, huniq⟩ := hM
  intro k
  induction k with
  | zero =>
    intro i0 used hk _
    rw [hk]
    simp [List.range'_zero, pairLoop]
  | succ k ih =>
    intro i0 used hk hinv
    have hi0 : i0 < faces.length := by omega
    obtain ⟨hσlt, hσne, hσanti, hσσ⟩ := hσ i0 hi0
    rw [hk, List.range'_succ]
    simp only [pairLoop, List.filter_cons]
    have hksub : faces.length - (i0 + 1) = k := by omega
    by_cases hmem : i0 ∈ used
    · rw [if_pos hmem]
      have hlt : σ i0 < i0 := (hinv i0 (le_refl _) hi0).mp hmem
      have hdec : ¬ (i0 < σ i0) := by omega
      rw [if_neg (by simpa using hdec)]
      have hrec := ih (i0 + 1) used (by omega) ?_
      · rw [hksub] at hrec
        exact hrec
      · intro m hm1 hm2
        rw [hinv m (by omega) hm2]
        constructor
        · omega
        · intro h
          rcases Nat.lt_succ_iff_lt_or_eq.mp h with h' | h'
          · exact h'
          · exfalso
            have : m = σ i0 := by rw [← h', hσ m hm2 |>.2.2.2]
            omega
    · rw [if_neg hmem]
      have hgt : i0 < σ i0 := by
        rcases Nat.lt_or_ge i0 (σ i0) with h | h
        · exact h
        · have : σ i0 < i0 := by omega
          exact absurd ((hinv i0 (le_refl _) hi0).mpr this) hmem
      have hscan : scanPartner faces used i0
          (List.range' (i0 + 1) (faces.length - (i0 + 1))) = some (σ i0) := by
        apply scanPartner_finds
        · rw [List.mem_range'_1]
          omega
        · intro hc
          have := (hinv (σ i0) (by omega) hσlt).mp hc
          omega
        · exact hσanti
        · intro c hc hanti
          have hcn : c < faces.length := by
            have := List.mem_range'_1.mp hc
            omega
          exact huniq i0 c hi0 hcn hanti
      rw [if_pos (by simpa using hgt)]
      simp only [hscan]
      have hrec := ih (i0 + 1) (i0 :: σ i0 :: used) (by omega) ?_
      · rw [hksub] at hrec
        rw [hrec, List.map_cons]
      · intro m hm1 hm2
        simp only [List.mem_cons]
        constructor
        · rintro (rfl | rfl | h)
          · omega
          · rw [hσσ]; omega
          · have := (hinv m (by omega) hm2).mp h
            omega
        · intro h
          rcases Nat.lt_succ_iff_lt_or_eq.mp h with h' | h'
          · exact Or.inr (Or.inr ((hinv m (by omega) hm2).mpr h'))
          · have : m = σ i0 := by rw [← h', hσ m hm2 |>.2.2.2]
            exact Or.inr (Or.inl this)

/-- The greedy pair list of a perfectly matched face list, explicitly. -/
theorem buildPairs_matched (faces : List Face) (σ : ℕ → ℕ) (hM : IsMatching faces σ) :
    buildPairs faces
      = ((List.range faces.length).filter (fun m => decide (m < σ m))).map
          (fun m => (m, some (σ m))) := by
  unfold buildPairs
  rw [List.range_eq_range', show List.range' 0 faces.length =
    List.range' 0 (faces.length - 0) from by rw [Nat.sub_zero]]
  rw [pairLoop_matched faces σ hM (faces.length - 0) 0 [] rfl (by simp)]

/-- The assignment loop preserves the length of the number array. -/
theorem assignLoop_length (target : ℤ) (val : ℕ → ℤ) (P : List (ℕ × Option ℕ))
    (k : ℕ) (nums : List ℤ) :
    (assignLoop target val P k nums).length = nums.length := by
  induction P generalizing k nums with
  | nil => rfl
  | cons p ps ih =>
    simp only [assignLoop]
    cases hp : p.2 with
    | some j => simp [hp, ih]
    | none => simp [hp, ih]

/-- Indices outside the slots of the pair list keep their initial value. -/
theorem assignLoop_getElem?_not_mem (target : ℤ) (val : ℕ → ℤ)
    (P : List (ℕ × Option ℕ)) (k : ℕ) (nums : List ℤ) (m : ℕ)
    (hm : m ∉ slotsOf P) :
    (assignLoop target val P k nums)[m]? = nums[m]? := by
  induction P generalizing k nums with
  | nil => rfl
  | cons p ps ih =>
    rw [slotsOf_cons] at hm
    simp only [List.mem_cons, List.mem_append, not_or] at hm
    obtain ⟨h1, h2, h3⟩ := hm
    cases hp : p.2 with
    | some j =>
      have hj : m ≠ j := by
        intro h
        exact h2 (by rw [hp, h]; exact List.mem_singleton.mpr rfl)
      simp only [assignLoop, hp]
      rw [ih _ _ h3, List.getElem?_set_ne (fun h => hj h.symm),
        List.getElem?_set_ne (fun h => h1 h.symm)]
    | none =>
      simp only [assignLoop, hp]
      rw [ih _ _ h3, List.getElem?_set_ne (fun h => h1 h.symm)]

/-- The first slot of the `t`-th pair receives `val (k + t)`. -/
theorem assignLoop_getElem?_left (target : ℤ) (val : ℕ → ℤ)
    (P : List (ℕ × Option ℕ)) (k : ℕ) (nums : List ℤ) (t : ℕ) (ht : t < P.length)
    (hnd : (slotsOf P).Nodup) (hlen : ∀ s ∈ slotsOf P, s < nums.length) :
    (assignLoop target val P k nums)[(P.get ⟨t, ht⟩).1]? = some (val (k + t)) := by
  induction P generalizing k nums t with
  | nil => cases ht
  | cons p ps ih =>
    rw [slotsOf_cons] at hnd hlen
    have hndtail : (slotsOf ps).Nodup :=
      ((List.nodup_cons.mp hnd).2).of_append_right
    cases t with
    | zero =>
      have hp1m : p.1 ∉ slotsOf ps := fun hc =>
        (List.nodup_cons.mp hnd).1 (List.mem_append.mpr (Or.inr hc))
      have hp1len : p.1 < nums.length := hlen p.1 (List.mem_cons_self _ _)
      cases hp : p.2 with
      | some j =>
        have hj : p.1 ≠ j := by
          intro h
          exact (List.nodup_cons.mp hnd).1
            (List.mem_append.mpr (Or.inl (by rw [hp, h]; exact List.mem_singleton.mpr rfl)))
        simp only [assignLoop, hp, List.get]
        rw [assignLoop_getElem?_not_mem _ _ _ _ _ _ hp1m,
          List.getElem?_set_ne (fun h => hj h.symm),
          List.getElem?_set_self hp1len, Nat.add_zero]
      | none =>
        simp only [assignLoop, hp, List.get]
        rw [assignLoop_getElem?_not_mem _ _ _ _ _ _ hp1m,
          List.getElem?_set_self hp1len, Nat.add_zero]
    | succ t' =>
      have ht' : t' < ps.length := by simpa using ht
      have harith : k + 1 + t' = k + (t' + 1) := by omega
      cases hp : p.2 with
      | some j =>
        simp only [assignLoop, hp, List.get]
        have := ih (k + 1) ((nums.set p.1 (val k)).set j (target - val k)) t' ht' hndtail
          (fun s hs => by
            simpa using hlen s (List.mem_cons_of_mem _ (List.mem_append.mpr (Or.inr hs))))
        rw [this, harith]
      | none =>
        simp only [assignLoop, hp, List.get]
        have := ih (k + 1) (nums.set p.1 (val k)) t' ht' hndtail
          (fun s hs => by
            simpa using hlen s (List.mem_cons_of_mem _ (List.mem_append.mpr (Or.inr hs))))
        rw [this, harith]

/-- The partner slot of the `t`-th pair receives `target - val (k + t)`. -/
theorem assignLoop_getElem?_partner (target : ℤ) (val : ℕ → ℤ)
    (P : List (ℕ × Option ℕ)) (k : ℕ) (nums : List ℤ) (t : ℕ) (ht : t < P.length)
    (j : ℕ) (hj : (P.get ⟨t, ht⟩).2 = some j)
    (hnd : (slotsOf P).Nodup) (hlen : ∀ s ∈ slotsOf P, s < nums.length) :
    (assignLoop target val P k nums)[j]? = some (target - val (k + t)) := by
  induction P generalizing k nums t with
  | nil => cases ht
  | cons p ps ih =>
    rw [slotsOf_cons] at hnd hlen
    have hndtail : (slotsOf ps).Nodup :=
      ((List.nodup_cons.mp hnd).2).of_append_right
    cases t with
    | zero =>
      simp only [List.get] at hj
      have hjmem : j ∈ p.2.toList := by rw [hj]; exact List.mem_singleton.mpr rfl
      have hjm : j ∉ slotsOf ps := fun hc =>
        (List.disjoint_of_nodup_append (List.nodup_cons.mp hnd).2) hjmem hc
      have hjlen : j < nums.length :=
        hlen j (List.mem_cons_of_mem _ (List.mem_append.mpr (Or.inl hjmem)))
      simp only [assignLoop, hj]
      rw [assignLoop_getElem?_not_mem _ _ _ _ _ _ hjm,
        List.getElem?_set_self (by simpa using hjlen), Nat.add_zero]
    | succ t' =>
      have ht' : t' < ps.length := by simpa using ht
      simp only [List.get] at hj
      have harith : k + 1 + t' = k + (t' + 1) := by omega
      cases hp : p.2 with
      | some j2 =>
        simp only [assignLoop, hp]
        have := ih (k + 1) ((nums.set p.1 (val k)).set j2 (target - val k)) t' ht' hj hndtail
          (fun s hs => by
            simpa using hlen s (List.mem_cons_of_mem _ (List.mem_append.mpr (Or.inr hs))))
        rw [this, harith]
      | none =>
        simp only [assignLoop, hp]
        have := ih (k + 1) (nums.set p.1 (val k)) t' ht' hj hndtail
          (fun s hs => by
            simpa using hlen s (List.mem_cons_of_mem _ (List.mem_append.mpr (Or.inr hs))))
        rw [this, harith]

/-- A face is never anti-parallel to itself (a dot square is non-negative). -/
theorem anti_irrefl (faces : List Face) (m : ℕ) : ¬ anti faces m m := by
  unfold anti
  intro h
  simp only [V3.dot] at h
  nlinarith [sq_nonneg (nrm faces m).x, sq_nonneg (nrm faces m).y, sq_nonneg (nrm faces m).z]

/-- The slots of the greedy pair list contain no duplicates. -/
theorem slots_buildPairs_nodup (faces : List Face) : (slotsOf (buildPairs faces)).Nodup := by
  rw [List.nodup_iff_count_le_one]
  intro m
  rw [buildPairs_count]
  split <;> omega

/-- The slots of the greedy pair list are exactly the face indices. -/
theorem mem_slots_buildPairs (faces : List Face) (m : ℕ) :
    m ∈ slotsOf (buildPairs faces) ↔ m < faces.length := by
  rw [← List.count_pos_iff, buildPairs_count]
  split <;> omega

/-- There are as many slots as faces. -/
theorem slots_buildPairs_length (faces : List Face) :
    (slotsOf (buildPairs faces)).length = faces.length := by
  have hperm : List.Perm (slotsOf (buildPairs faces)) (List.range faces.length) := by
    rw [List.perm_iff_count]
    intro m
    rw [buildPairs_count]
    by_cases h : m < faces.length
    · rw [if_pos h, List.count_eq_one_of_mem (List.nodup_range _) (List.mem_range.mpr h)]
    · rw [if_neg h, List.count_eq_zero_of_not_mem (by simpa using h)]
  simpa using hperm.length_eq

/-- A pair list whose pairs are all complete has two slots per pair. -/
theorem slotsOf_length_all_some (P : List (ℕ × Option ℕ))
    (h : ∀ p ∈ P, p.2.isSome = true) : (slotsOf P).length = 2 * P.length := by
  induction P with
  | nil => rfl
  | cons p ps ih =>
    rw [slotsOf_cons]
    obtain ⟨j, hj⟩ := Option.isSome_iff_exists.mp (h p (List.mem_cons_self _ _))
    have := ih (fun q hq => h q (List.mem_cons_of_mem _ hq))
    simp only [hj, Option.toList_some, List.singleton_append, List.length_cons, this,
      List.length_cons]
    omega

/-- `assignLoop_getElem?_left` reformulated through `getElem?`. -/
theorem assignLoop_left_of_getElem? (target : ℤ) (val : ℕ → ℤ)
    (P : List (ℕ × Option ℕ)) (k : ℕ) (nums : List ℤ) (t : ℕ) (a : ℕ) (ob : Option ℕ)
    (hP : P[t]? = some (a, ob))
    (hnd : (slotsOf P).Nodup) (hlen : ∀ s ∈ slotsOf P, s < nums.length) :
    (assignLoop target val P k nums)[a]? = some (val (k + t)) := by
  rw [List.getElem?_eq_some_iff] at hP
  obtain ⟨ht, hEl⟩ := hP
  have := assignLoop_getElem?_left target val P k nums t ht hnd hlen
  rw [List.get_eq_getElem, hEl] at this
  exact this

/-- `assignLoop_getElem?_partner` reformulated through `getElem?`. -/
theorem assignLoop_partner_of_getElem? (target : ℤ) (val : ℕ → ℤ)
    (P : List (ℕ × Option ℕ)) (k : ℕ) (nums : List ℤ) (t : ℕ) (a j : ℕ)
    (hP : P[t]? = some (a, some j))
    (hnd : (slotsOf P).Nodup) (hlen : ∀ s ∈ slotsOf P, s < nums.length) :
    (assignLoop target val P k nums)[j]? = some (target - val (k + t)) := by
  rw [List.getElem?_eq_some_iff] at hP
  obtain ⟨ht, hEl⟩ := hP
  have := assignLoop_getElem?_partner target val P k nums t ht j
    (by rw [List.get_eq_getElem, hEl]) hnd hlen
  exact this

/-- Extract an involutive matching function from the "exactly one
anti-parallel partner" hypothesis. -/
theorem matching_of_unique (faces : List Face)
    (hM : ∀ i, i < faces.length → ∃ j, j < faces.length ∧ (i ≠ j ∧ anti faces i j) ∧
      ∀ k, k < faces.length → i ≠ k → anti faces i k → k = j) :
    ∃ σ : ℕ → ℕ, IsMatching faces σ := by
  classical
  have hσex : ∀ i, ∃ j, i < faces.length → (j < faces.length ∧ (i ≠ j ∧ anti faces i j) ∧
      ∀ k, k < faces.length → i ≠ k → anti faces i k → k = j) := by
    intro i
    by_cases hi : i < faces.length
    · obtain ⟨j, hj⟩ := hM i hi
      exact ⟨j, fun _ => hj⟩
    · exact ⟨0, fun h => absurd h hi⟩
  choose σ hσspec using hσex
  have hσ1 : ∀ m, m < faces.length → σ m < faces.length := fun m hm => (hσspec m hm).1
  have hσanti : ∀ m, m < faces.length → anti faces m (σ m) := fun m hm => (hσspec m hm).2.1.2
  have huniq : ∀ m j, m < faces.length → j < faces.length → anti faces m j → j = σ m := by
    intro m j hm hj hanti
    exact (hσspec m hm).2.2 j hj (fun h => anti_irrefl faces m (h ▸ hanti)) hanti
  have hσσ : ∀ m, m < faces.length → σ (σ m) = m := fun m hm =>
    (huniq (σ m) m (hσ1 m hm) hm (anti_symm (hσanti m hm))).symm
  exact ⟨σ, fun m hm => ⟨hσ1 m hm, Ne.symm (hσspec m hm).2.1.1, hσanti m hm, hσσ m hm⟩, huniq⟩

/-- A pair list never has more entries than slots. -/
theorem length_le_slotsOf_length (P : List (ℕ × Option ℕ)) :
    P.length ≤ (slotsOf P).length := by
  induction P with
  | nil => simp [slotsOf]
  | cons p ps ih =>
    rw [slotsOf_cons]
    simp only [List.length_cons, List.length_append]
    omega

/-- The D10 reorientation permutes each pair's slots, so slot counts are
unchanged. -/
theorem count_slotsOf_map_flip (faces : List Face) (P : List (ℕ × Option ℕ)) (m : ℕ) :
    (slotsOf (P.map (d10Flip faces))).count m = (slotsOf P).count m := by
  induction P with
  | nil => rfl
  | cons p ps ih =>
    obtain ⟨a, ob⟩ := p
    cases ob with
    | none =>
      simp only [List.map_cons, slotsOf_cons, d10Flip, Option.toList_none, List.nil_append,
        List.count_cons, ih]
    | some b =>
      by_cases hy : (ctr faces a).y < (ctr faces b).y
      · simp only [List.map_cons, slotsOf_cons, d10Flip, if_pos hy, Option.toList_some,
          List.singleton_append, List.count_cons, ih]
        omega
      · simp only [List.map_cons, slotsOf_cons, d10Flip, if_neg hy, Option.toList_some,
          List.singleton_append, List.count_cons, ih]

/-- Slot counts are invariant under permutations of the pair list. -/
theorem count_slotsOf_perm {P Q : List (ℕ × Option ℕ)} (h : List.Perm P Q) (m : ℕ) :
    (slotsOf P).count m = (slotsOf Q).count m := by
  unfold slotsOf
  exact (h.flatMap_right _).count_eq m

/-- Slot counts of the sorted, reoriented D10 pair list agree with those of
the greedy pair list: every face index lands in exactly one slot. -/
theorem count_slotsOf_d10Pairs (faces : List Face) (m : ℕ) :
    (slotsOf (d10Pairs faces)).count m = if m < faces.length then 1 else 0 := by
  unfold d10Pairs
  rw [count_slotsOf_perm (List.perm_insertionSort _ _) m, count_slotsOf_map_flip,
    buildPairs_count]

/-- If every index below `n` lands in exactly one slot, the assignment loop
writes either a first-slot value or a partner value at every such index. -/
theorem assign_covers (target : ℤ) (val : ℕ → ℤ) (P : List (ℕ × Option ℕ)) (n : ℕ)
    (hcount : ∀ m, (slotsOf P).count m = if m < n then 1 else 0)
    (i : ℕ) (hi : i < n) :
    (∃ t, t < P.length ∧
      (assignLoop target val P 0 (List.replicate n 0)).getD i 0 = val t) ∨
    (∃ t, t < P.length ∧
      (assignLoop target val P 0 (List.replicate n 0)).getD i 0 = target - val t) := by
  have hnd : (slotsOf P).Nodup :=
    List.nodup_iff_count_le_one.mpr (fun m => by rw [hcount]; split <;> omega)
  have hmem : i ∈ slotsOf P := List.count_pos_iff.mp (by rw [hcount, if_pos hi]; omega)
  have hlen : ∀ s ∈ slotsOf P, s < (List.replicate n (0 : ℤ)).length := by
    intro s hs
    rw [List.length_replicate]
    have h1 := List.count_pos_iff.mpr hs
    rw [hcount] at h1
    by_contra hh
    rw [if_neg hh] at h1
    omega
  have hmem' : ∃ p ∈ P, i ∈ p.1 :: p.2.toList := by
    unfold slotsOf at hmem
    exact List.mem_flatMap.mp hmem
  obtain ⟨p, hpP, hip⟩ := hmem'
  obtain ⟨t, ht, hPt⟩ := List.mem_iff_getElem.mp hpP
  rcases List.mem_cons.mp hip with hip1 | hip2
  · left
    refine ⟨t, ht, ?_⟩
    subst hip1
    rw [List.getD_eq_getElem?_getD,
      assignLoop_left_of_getElem? target val P 0 _ t p.1 p.2
        (by rw [List.getElem?_eq_getElem ht, hPt]) hnd hlen]
    simp
  · right
    have hb : ∃ b, p.2 = some b := by
      cases hp2 : p.2 with
      | none => rw [hp2] at hip2; cases hip2
      | some b => exact ⟨b, rfl⟩
    obtain ⟨b, hb⟩ := hb
    rw [hb] at hip2
    have hib : i = b := List.mem_singleton.mp hip2
    subst hib
    refine ⟨t, ht, ?_⟩
    rw [List.getD_eq_getElem?_getD,
      assignLoop_partner_of_getElem? target val P 0 _ t p.1 i
        (by rw [List.getElem?_eq_getElem ht, hPt, ← hb]) hnd hlen]
    simp

/-- C9, counterexample to the claim as stated: for the eight-face example die
and `sides = 3` (not 4 or 6), the greedy loop produces four pairs, and the
fourth partner receives `target - 4 = 0`, so not every entry of the result is
positive. -/
theorem c9_counterexample :
    (computeFaceNumbers exFaces8 3).length = 8 ∧
    (computeFaceNumbers exFaces8 3).getD 7 0 = 0 ∧
    ¬ (∀ i, i < (computeFaceNumbers exFaces8 3).length →
        0 < (computeFaceNumbers exFaces8 3).getD i 0) := by
  have hval : computeFaceNumbers exFaces8 3 = [1, 3, 2, 2, 3, 1, 4, 0] := by
    norm_num [computeFaceNumbers, buildPairs, pairLoop, scanPartner, anti, nrm, exFaces8, nFace,
      vneg, V3.dot, V3.zero, List.range', List.getD, assignLoop, List.set, List.replicate]
  rw [hval]
  refine ⟨rfl, rfl, fun h => ?_⟩
  have := h 7 (by norm_num)
  norm_num at this

/-- C9 as amended: for every non-empty face list with at most `sides` faces
(`sides` not 4 or 6) — and, for the D10 branch, in which every face has
exactly one anti-parallel partner — `computeFaceNumbers` returns an array of
the same length as the face list, every face index is placed in exactly one
slot of the greedy pair list, and every entry is a positive integer. -/
theorem c9_amended_all_assigned (faces : List Face) (sides : ℕ)
    (hfne : faces ≠ [])
    (h4 : sides ≠ 4) (h6 : sides ≠ 6)
    (hlen : faces.length ≤ sides)
    (hmat10 : sides = 10 →
      ∀ i, i < faces.length → ∃ j, j < faces.length ∧ (i ≠ j ∧ anti faces i j) ∧
        ∀ k, k < faces.length → i ≠ k → anti faces i k → k = j) :
    (computeFaceNumbers faces sides).length = faces.length ∧
    (∀ m, m < faces.length → (slotsOf (buildPairs faces)).count m = 1) ∧
    (∀ i, i < faces.length → 1 ≤ (computeFaceNumbers faces sides).getD i 0) := by
  have hslot : ∀ m, m < faces.length → (slotsOf (buildPairs faces)).count m = 1 := by
    intro m hm
    rw [buildPairs_count, if_pos hm]
  by_cases h10 : sides = 10
  · subst h10
    have hcfn : computeFaceNumbers faces 10
        = assignLoop ((10 : ℤ) + 1) (fun k => 2 * (k : ℤ) + 1) (d10Pairs faces) 0
            (List.replicate faces.length 0) := rfl
    obtain ⟨σ, hMM⟩ := matching_of_unique faces (hmat10 rfl)
    have hP : buildPairs faces
        = ((List.range faces.length).filter (fun m => decide (m < σ m))).map
            (fun m => (m, some (σ m))) := buildPairs_matched faces σ hMM
    have hhalf : 2 * (buildPairs faces).length = faces.length := by
      have hall : ∀ p ∈ buildPairs faces, p.2.isSome = true := by
        rw [hP]
        intro p hp
        obtain ⟨m, _, rfl⟩ := List.mem_map.mp hp
        rfl
      have h1 := slotsOf_length_all_some _ hall
      rw [slots_buildPairs_length] at h1
      omega
    have hplen : (d10Pairs faces).length = (buildPairs faces).length := by
      unfold d10Pairs
      rw [List.length_insertionSort, List.length_map]
    refine ⟨by rw [hcfn, assignLoop_length, List.length_replicate], hslot, ?_⟩
    intro i hi
    rw [hcfn]
    rcases assign_covers ((10 : ℤ) + 1) (fun k => 2 * (k : ℤ) + 1) (d10Pairs faces)
        faces.length (count_slotsOf_d10Pairs faces) i hi with ⟨t, ht, hv⟩ | ⟨t, ht, hv⟩
    · rw [hv]; omega
    · rw [hv]
      rw [hplen] at ht
      omega
  · have hcfn : computeFaceNumbers faces sides
        = assignLoop ((sides : ℤ) + 1) (fun k => (k : ℤ) + 1) (buildPairs faces) 0
            (List.replicate faces.length 0) := by
      unfold computeFaceNumbers
      rw [if_neg h6, if_neg h4, if_neg h10]
    have hplen : (buildPairs faces).length ≤ faces.length := by
      have := length_le_slotsOf_length (buildPairs faces)
      rw [slots_buildPairs_length] at this
      exact this
    refine ⟨by rw [hcfn, assignLoop_length, List.length_replicate], hslot, ?_⟩
    intro i hi
    rw [hcfn]
    rcases assign_covers ((sides : ℤ) + 1) (fun k => (k : ℤ) + 1) (buildPairs faces)
        faces.length (buildPairs_count faces) i hi with ⟨t, ht, hv⟩ | ⟨t, ht, hv⟩
    · rw [hv]; omega
    · rw [hv]; omega

/-- Witness for the amended C9 on the eight-face example die with
`sides = 8`. -/
theorem c9_amended_all_assigned_witness :
    (computeFaceNumbers exFaces8 8).length = exFaces8.length ∧
    (∀ m, m < exFaces8.length → (slotsOf (buildPairs exFaces8)).count m = 1) ∧
    (∀ i, i < exFaces8.length → 1 ≤ (computeFaceNumbers exFaces8 8).getD i 0) :=
  c9_amended_all_assigned exFaces8 8 (by simp [exFaces8]) (by omega) (by omega)
    (by norm_num [exFaces8]) (fun h => absurd h (by omega))

/-- Tier 0 is the open lower half plane. -/
theorem azTier_eq_zero_iff (x z : ℚ) : azTier x z = 0 ↔ z < 0 := by
  unfold azTier
  split_ifs <;> simp_all

/-- Tier 2 is the open upper half plane. -/
theorem azTier_eq_two_iff (x z : ℚ) : azTier x z = 2 ↔ 0 < z := by
  unfold azTier
  split_ifs <;> simp_all <;> linarith

/-- The azimuth order is reflexive. -/
theorem azLe_refl (x z : ℚ) : azLe x z x z := by
  unfold azLe
  exact Or.inr ⟨rfl, fun _ => (by ring : (0 : ℚ) = x * z - z * x).le⟩

/-- The azimuth order is total. -/
theorem azLe_total (x1 z1 x2 z2 : ℚ) : azLe x1 z1 x2 z2 ∨ azLe x2 z2 x1 z1 := by
  unfold azLe
  rcases Nat.lt_trichotomy (azTier x1 z1) (azTier x2 z2) with h | h | h
  · exact Or.inl (Or.inl h)
  · rcases le_total 0 (x1 * z2 - z1 * x2) with hc | hc
    · exact Or.inl (Or.inr ⟨h, fun _ => hc⟩)
    · exact Or.inr (Or.inr ⟨h.symm, fun _ => by linarith⟩)
  · exact Or.inr (Or.inl h)

/-- The azimuth order is transitive: inside an open half plane the cross
product order is transitive because the cotangent is monotone there, and the
tier order handles everything else. -/
theorem azLe_trans (x1 z1 x2 z2 x3 z3 : ℚ)
    (h12 : azLe x1 z1 x2 z2) (h23 : azLe x2 z2 x3 z3) : azLe x1 z1 x3 z3 := by
  unfold azLe at h12 h23 ⊢
  rcases h12 with h12 | ⟨he12, hc12⟩
  · rcases h23 with h23 | ⟨he23, hc23⟩
    · exact Or.inl (h12.trans h23)
    · exact Or.inl (he23 ▸ h12)
  · rcases h23 with h23 | ⟨he23, hc23⟩
    · exact Or.inl (he12 ▸ h23)
    · refine Or.inr ⟨he12.trans he23, fun hcase => ?_⟩
      have hA := hc12 hcase
      have hB := hc23 (by rw [← he12]; exact hcase)
      have hid : (x1 * z2 - z1 * x2) * z3 + (x2 * z3 - z2 * x3) * z1
          = z2 * (x1 * z3 - z1 * x3) := by ring
      rcases hcase with h0 | h2
      · have hz1 : z1 < 0 := (azTier_eq_zero_iff x1 z1).mp h0
        have hz2 : z2 < 0 := (azTier_eq_zero_iff x2 z2).mp (by rw [← he12]; exact h0)
        have hz3 : z3 < 0 := (azTier_eq_zero_iff x3 z3).mp (by rw [← he23, ← he12]; exact h0)
        by_contra hW
        push_neg at hW
        nlinarith [mul_nonneg hA (by linarith : (0 : ℚ) ≤ -z3),
          mul_nonneg hB (by linarith : (0 : ℚ) ≤ -z1)]
      · have hz1 : 0 < z1 := (azTier_eq_two_iff x1 z1).mp h2
        have hz2 : 0 < z2 := (azTier_eq_two_iff x2 z2).mp (by rw [← he12]; exact h2)
        have hz3 : 0 < z3 := (azTier_eq_two_iff x3 z3).mp (by rw [← he23, ← he12]; exact h2)
        by_contra hW
        push_neg at hW
        nlinarith [mul_nonneg hA (le_of_lt hz3), mul_nonneg hB (le_of_lt hz1)]

/-- C1: for every face list extracted from a die with sides in {8,12,20} in
which every face has exactly one anti-parallel partner,
`computeFaceNumbers(faces, sides)` is a bijection onto `1..sides` and every
opposite pair sums to `sides + 1`.  ("Extracted from a die with `sides`
faces" supplies the face count `faces.length = sides`.) -/
theorem c1_opposite_sum_bijection (faces : List Face) (sides : ℕ)
    (hsides : sides = 8 ∨ sides = 12 ∨ sides = 20)
    (hlen : faces.length = sides)
    (hM : ∀ i, i < faces.length → ∃ j, j < faces.length ∧ (i ≠ j ∧ anti faces i j) ∧
      ∀ k, k < faces.length → i ≠ k → anti faces i k → k = j) :
    (computeFaceNumbers faces sides).length = sides ∧
    (∀ i, i < sides → 1 ≤ (computeFaceNumbers faces sides).getD i 0 ∧
      (computeFaceNumbers faces sides).getD i 0 ≤ (sides : ℤ)) ∧
    (∀ v : ℤ, 1 ≤ v → v ≤ (sides : ℤ) →
      ∃ i, i < sides ∧ (computeFaceNumbers faces sides).getD i 0 = v) ∧
    (∀ i j, i < sides → j < sides → i ≠ j →
      (computeFaceNumbers faces sides).getD i 0 ≠ (computeFaceNumbers faces sides).getD j 0) ∧
    (∀ i j, i < sides → j < sides → anti faces i j →
      (computeFaceNumbers faces sides).getD i 0 + (computeFaceNumbers faces sides).getD j 0
        = (sides : ℤ) + 1) := by
  classical
  obtain ⟨σ, hMM⟩ := matching_of_unique faces hM
  have hσ1 : ∀ m, m < faces.length → σ m < faces.length := fun m hm => (hMM.1 m hm).1
  have hσne : ∀ m, m < faces.length → σ m ≠ m := fun m hm => (hMM.1 m hm).2.1
  have hσanti : ∀ m, m < faces.length → anti faces m (σ m) := fun m hm => (hMM.1 m hm).2.2.1
  have hσσ : ∀ m, m < faces.length → σ (σ m) = m := fun m hm => (hMM.1 m hm).2.2.2
  have huniq := hMM.2
  have hP : buildPairs faces
      = ((List.range faces.length).filter (fun m => decide (m < σ m))).map
          (fun m => (m, some (σ m))) := buildPairs_matched faces σ hMM
  set L := (List.range faces.length).filter (fun m => decide (m < σ m)) with hLdef
  have hmemL : ∀ m, m ∈ L ↔ (m < faces.length ∧ m < σ m) := by
    intro m
    rw [hLdef, List.mem_filter, List.mem_range]
    simp
  have hndQ := slots_buildPairs_nodup faces
  have hlenQ : ∀ s ∈ slotsOf (buildPairs faces),
      s < (List.replicate faces.length (0 : ℤ)).length := by
    intro s hs
    rw [List.length_replicate]
    exact (mem_slots_buildPairs faces s).mp hs
  have hLlen : 2 * L.length = faces.length := by
    have hall : ∀ p ∈ buildPairs faces, p.2.isSome = true := by
      rw [hP]
      intro p hp
      obtain ⟨m, _, rfl⟩ := List.mem_map.mp hp
      rfl
    have h1 := slotsOf_length_all_some _ hall
    rw [slots_buildPairs_length] at h1
    rw [hP, List.length_map] at h1
    omega
  have hQt : ∀ t (h : t < L.length),
      (buildPairs faces)[t]? = some (L.get ⟨t, h⟩, some (σ (L.get ⟨t, h⟩))) := by
    intro t h
    rw [hP]
    rw [List.getElem?_map, List.getElem?_eq_getElem h]
    rfl
  have hcfn : computeFaceNumbers faces sides
      = assignLoop ((sides : ℤ) + 1) (fun k => (k : ℤ) + 1) (buildPairs faces) 0
          (List.replicate faces.length 0) := by
    rcases hsides with rfl | rfl | rfl <;> rfl
  -- the value read back at a left slot
  have hvalL : ∀ t (h : t < L.length),
      (computeFaceNumbers faces sides).getD (L.get ⟨t, h⟩) 0 = (t : ℤ) + 1 := by
    intro t h
    rw [hcfn, List.getD_eq_getElem?_getD,
      assignLoop_left_of_getElem? _ _ _ _ _ t (L.get ⟨t, h⟩) (some (σ (L.get ⟨t, h⟩)))
        (hQt t h) hndQ hlenQ]
    simp
  -- the value read back at a partner slot
  have hvalR : ∀ t (h : t < L.length),
      (computeFaceNumbers faces sides).getD (σ (L.get ⟨t, h⟩)) 0 = (sides : ℤ) - t := by
    intro t h
    rw [hcfn, List.getD_eq_getElem?_getD,
      assignLoop_partner_of_getElem? _ _ _ _ _ t (L.get ⟨t, h⟩) (σ (L.get ⟨t, h⟩))
        (hQt t h) hndQ hlenQ]
    simp
  -- locate an index inside L
  have hfind : ∀ i, i < faces.length → i < σ i → ∃ t, ∃ h : t < L.length, L.get ⟨t, h⟩ = i := by
    intro i hi hlt
    have : i ∈ L := (hmemL i).mpr ⟨hi, hlt⟩
    obtain ⟨t, h, hEl⟩ := List.mem_iff_getElem.mp this
    exact ⟨t, h, hEl⟩
  -- value characterization for every index
  have hchar : ∀ i, i < faces.length →
      (∃ t, ∃ h : t < L.length, L.get ⟨t, h⟩ = i ∧
        (computeFaceNumbers faces sides).getD i 0 = (t : ℤ) + 1) ∨
      (∃ t, ∃ h : t < L.length, σ (L.get ⟨t, h⟩) = i ∧
        (computeFaceNumbers faces sides).getD i 0 = (sides : ℤ) - t) := by
    intro i hi
    rcases Nat.lt_or_ge i (σ i) with hlt | hge
    · obtain ⟨t, h, hEl⟩ := hfind i hi hlt
      exact Or.inl ⟨t, h, hEl, by rw [← hEl]; exact hvalL t h⟩
    · have hσine : σ i ≠ i := hσne i hi
      have hlt' : σ i < i := lt_of_le_of_ne hge hσine
      have hi' : σ i < faces.length := hσ1 i hi
      have hii : σ (σ i) = i := hσσ i hi
      have hlt2 : σ i < σ (σ i) := by rw [hii]; exact hlt'
      obtain ⟨t, h, hEl⟩ := hfind (σ i) hi' hlt2
      refine Or.inr ⟨t, h, ?_, ?_⟩
      · rw [hEl, hii]
      · have hval := hvalR t h
        rw [hEl, hii] at hval
        exact hval
  have hlen0 : (computeFaceNumbers faces sides).length = sides := by
    rw [hcfn, assignLoop_length, List.length_replicate, hlen]
  refine ⟨hlen0, ?_, ?_, ?_, ?_⟩
  · -- all values lie in 1..sides
    intro i hi
    rcases hchar i (by omega) with ⟨t, ht, _, hv⟩ | ⟨t, ht, _, hv⟩ <;> rw [hv] <;>
      constructor <;> omega
  · -- every value in 1..sides is attained
    intro v h1 h2
    by_cases hv : v ≤ (L.length : ℤ)
    · have ht : (v - 1).toNat < L.length := by omega
      refine ⟨L.get ⟨(v - 1).toNat, ht⟩, ?_, ?_⟩
      · have hmem : L.get ⟨(v - 1).toNat, ht⟩ ∈ L := List.getElem_mem ht
        have := ((hmemL _).mp hmem).1
        omega
      · rw [hvalL _ ht]
        omega
    · have ht : ((sides : ℤ) - v).toNat < L.length := by omega
      refine ⟨σ (L.get ⟨((sides : ℤ) - v).toNat, ht⟩), ?_, ?_⟩
      · have hmem : L.get ⟨((sides : ℤ) - v).toNat, ht⟩ ∈ L := List.getElem_mem ht
        have h3 := ((hmemL _).mp hmem).1
        have h4 := hσ1 _ h3
        omega
      · rw [hvalR _ ht]
        omega
  · -- injectivity
    intro i j hi hj hne heq
    rcases hchar i (by omega) with ⟨t, ht, hEl, hv⟩ | ⟨t, ht, hEl, hv⟩ <;>
      rcases hchar j (by omega) with ⟨s, hs, hEl2, hv2⟩ | ⟨s, hs, hEl2, hv2⟩ <;>
      rw [hv, hv2] at heq
    · obtain rfl : t = s := by omega
      exact hne (by rw [← hEl, ← hEl2])
    · omega
    · omega
    · obtain rfl : t = s := by omega
      exact hne (by rw [← hEl, ← hEl2])
  · -- opposite pairs sum to sides + 1
    intro i j hi hj hanti
    have hij : j = σ i := huniq i j (by omega) (by omega) hanti
    rcases Nat.lt_or_ge i (σ i) with hlt | hge
    · obtain ⟨t, h, hEl⟩ := hfind i (by omega) hlt
      have h1 := hvalL t h
      have h2 := hvalR t h
      rw [hEl] at h1 h2
      rw [h1, hij, h2]
      omega
    · have hσine : σ i ≠ i := hσne i (by omega)
      have hlt' : σ i < i := lt_of_le_of_ne hge hσine
      have hjj : σ j = i := by rw [hij]; exact hσσ i (by omega)
      have hjlt : j < σ j := by rw [hjj, hij]; exact hlt'
      obtain ⟨t, h, hEl⟩ := hfind j (by omega) hjlt
      have h1 := hvalL t h
      have h2 := hvalR t h
      rw [hEl] at h1 h2
      rw [hjj] at h2
      rw [h1, h2]
      omega

/-- The eight example faces form a perfect anti-parallel matching. -/
theorem exFaces8_matching :
    ∀ i, i < exFaces8.length → ∃ j, j < exFaces8.length ∧ (i ≠ j ∧ anti exFaces8 i j) ∧
      ∀ k, k < exFaces8.length → i ≠ k → anti exFaces8 i k → k = j := by
  have hlen : exFaces8.length = 8 := rfl
  rw [hlen]
  intro i hi
  have step : ∀ j : ℕ, j < 8 → (i ≠ j ∧ anti exFaces8 i j) →
      (∀ k, k < 8 → i ≠ k → anti exFaces8 i k → k = j) →
      ∃ j, j < 8 ∧ (i ≠ j ∧ anti exFaces8 i j) ∧
        ∀ k, k < 8 → i ≠ k → anti exFaces8 i k → k = j :=
    fun j h1 h2 h3 => ⟨j, h1, h2, h3⟩
  interval_cases i
  · exact step 1 (by norm_num)
      ⟨by norm_num, by norm_num [anti, nrm, exFaces8, nFace, vneg, V3.dot]⟩
      (fun k hk hne hanti => by
        interval_cases k <;>
          first
          | rfl
          | (revert hanti; norm_num [anti, nrm, exFaces8, nFace, vneg, V3.dot]))
  · exact step 0 (by norm_num)
      ⟨by norm_num, by norm_num [anti, nrm, exFaces8, nFace, vneg, V3.dot]⟩
      (fun k hk hne hanti => by
        interval_cases k <;>
          first
          | rfl
          | (revert hanti; norm_num [anti, nrm, exFaces8, nFace, vneg, V3.dot]))
  · exact step 3 (by norm_num)
      ⟨by norm_num, by norm_num [anti, nrm, exFaces8, nFace, vneg, V3.dot]⟩
      (fun k hk hne hanti => by
        interval_cases k <;>
          first
          | rfl
          | (revert hanti; norm_num [anti, nrm, exFaces8, nFace, vneg, V3.dot]))
  · exact step 2 (by norm_num)
      ⟨by norm_num, by norm_num [anti, nrm, exFaces8, nFace, vneg, V3.dot]⟩
      (fun k hk hne hanti => by
        interval_cases k <;>
          first
          | rfl
          | (revert hanti; norm_num [anti, nrm, exFaces8, nFace, vneg, V3.dot]))
  · exact step 5 (by norm_num)
      ⟨by norm_num, by norm_num [anti, nrm, exFaces8, nFace, vneg, V3.dot]⟩
      (fun k hk hne hanti => by
        interval_cases k <;>
          first
          | rfl
          | (revert hanti; norm_num [anti, nrm, exFaces8, nFace, vneg, V3.dot]))
  · exact step 4 (by norm_num)
      ⟨by norm_num, by norm_num [anti, nrm, exFaces8, nFace, vneg, V3.dot]⟩
      (fun k hk hne hanti => by
        interval_cases k <;>
          first
          | rfl
          | (revert hanti; norm_num [anti, nrm, exFaces8, nFace, vneg, V3.dot]))
  · exact step 7 (by norm_num)
      ⟨by norm_num, by norm_num [anti, nrm, exFaces8, nFace, vneg, V3.dot]⟩
      (fun k hk hne hanti => by
        interval_cases k <;>
          first
          | rfl
          | (revert hanti; norm_num [anti, nrm, exFaces8, nFace, vneg, V3.dot]))
  · exact step 6 (by norm_num)
      ⟨by norm_num, by norm_num [anti, nrm, exFaces8, nFace, vneg, V3.dot]⟩
      (fun k hk hne hanti => by
        interval_cases k <;>
          first
          | rfl
          | (revert hanti; norm_num [anti, nrm, exFaces8, nFace, vneg, V3.dot]))

/-- Witness for C1 on the eight-face example die. -/
theorem c1_opposite_sum_bijection_witness :
    (computeFaceNumbers exFaces8 8).length = 8 ∧
    (∀ i, i < 8 → 1 ≤ (computeFaceNumbers exFaces8 8).getD i 0 ∧
      (computeFaceNumbers exFaces8 8).getD i 0 ≤ (8 : ℤ)) ∧
    (∀ v : ℤ, 1 ≤ v → v ≤ (8 : ℤ) →
      ∃ i, i < 8 ∧ (computeFaceNumbers exFaces8 8).getD i 0 = v) ∧
    (∀ i j, i < 8 → j < 8 → i ≠ j →
      (computeFaceNumbers exFaces8 8).getD i 0 ≠ (computeFaceNumbers exFaces8 8).getD j 0) ∧
    (∀ i j, i < 8 → j < 8 → anti exFaces8 i j →
      (computeFaceNumbers exFaces8 8).getD i 0 + (computeFaceNumbers exFaces8 8).getD j 0
        = (8 : ℤ) + 1) :=
  c1_opposite_sum_bijection exFaces8 8 (Or.inl rfl) rfl exFaces8_matching

/-- C5: for a ten-face D10 in which every face has exactly one anti-parallel
partner and opposite centroids never share a height, `computeFaceNumbers`
gives the face of each pair with the larger centroid `y` an odd number in
`{1,3,5,7,9}` and gives its partner `11` minus that number; each of the five
odd numbers is attained on some top face; and the odd numbers increase
strictly along the exact azimuth order of the top-face centroids. -/
theorem c5_d10_numbering (faces : List Face)
    (hlen : faces.length = 10)
    (hM : ∀ i, i < faces.length → ∃ j, j < faces.length ∧ (i ≠ j ∧ anti faces i j) ∧
      ∀ k, k < faces.length → i ≠ k → anti faces i k → k = j)
    (hy : ∀ i j, i < faces.length → j < faces.length → anti faces i j →
      (ctr faces i).y ≠ (ctr faces j).y) :
    (∀ i j, i < 10 → j < 10 → anti faces i j →
      (ctr faces j).y < (ctr faces i).y →
      (computeFaceNumbers faces 10).getD i 0 ∈ ([1, 3, 5, 7, 9] : List ℤ) ∧
      (computeFaceNumbers faces 10).getD j 0
        = 11 - (computeFaceNumbers faces 10).getD i 0) ∧
    (∀ v, v ∈ ([1, 3, 5, 7, 9] : List ℤ) → ∃ i j, i < 10 ∧ j < 10 ∧ anti faces i j ∧
      (ctr faces j).y < (ctr faces i).y ∧
      (computeFaceNumbers faces 10).getD i 0 = v) ∧
    (∀ i j i2 j2, i < 10 → j < 10 → i2 < 10 → j2 < 10 →
      anti faces i j → anti faces i2 j2 →
      (ctr faces j).y < (ctr faces i).y →
      (ctr faces j2).y < (ctr faces i2).y →
      ¬ azLe (ctr faces i2).x (ctr faces i2).z (ctr faces i).x (ctr faces i).z →
      (computeFaceNumbers faces 10).getD i 0
        < (computeFaceNumbers faces 10).getD i2 0) := by
  classical
  obtain ⟨σ, hMM⟩ := matching_of_unique faces hM
  have hσ1 : ∀ m, m < faces.length → σ m < faces.length := fun m hm => (hMM.1 m hm).1
  have hσanti : ∀ m, m < faces.length → anti faces m (σ m) := fun m hm => (hMM.1 m hm).2.2.1
  have hσσ : ∀ m, m < faces.length → σ (σ m) = m := fun m hm => (hMM.1 m hm).2.2.2
  have huniq := hMM.2
  have hP : buildPairs faces
      = ((List.range faces.length).filter (fun m => decide (m < σ m))).map
          (fun m => (m, some (σ m))) := buildPairs_matched faces σ hMM
  have hcfn : computeFaceNumbers faces 10
      = assignLoop ((10 : ℤ) + 1) (fun k => 2 * (k : ℤ) + 1) (d10Pairs faces) 0
          (List.replicate faces.length 0) := rfl
  have hnd : (slotsOf (d10Pairs faces)).Nodup :=
    List.nodup_iff_count_le_one.mpr
      (fun m => by rw [count_slotsOf_d10Pairs]; split <;> omega)
  have hlenR : ∀ s ∈ slotsOf (d10Pairs faces),
      s < (List.replicate faces.length (0 : ℤ)).length := by
    intro s hs
    rw [List.length_replicate]
    have h1 := List.count_pos_iff.mpr hs
    rw [count_slotsOf_d10Pairs] at h1
    by_contra hh
    rw [if_neg hh] at h1
    omega
  have hstruct : ∀ q ∈ d10Pairs faces, ∃ a, a < faces.length ∧ q = (a, some (σ a)) ∧
      (ctr faces (σ a)).y < (ctr faces a).y := by
    intro q hq
    have hq2 : q ∈ (buildPairs faces).map (d10Flip faces) := by
      unfold d10Pairs at hq
      exact (List.perm_insertionSort (pairAzLe faces) _).mem_iff.mp hq
    obtain ⟨p, hpP, rfl⟩ := List.mem_map.mp hq2
    rw [hP] at hpP
    obtain ⟨m, hmL, rfl⟩ := List.mem_map.mp hpP
    have hm1 : m < faces.length := List.mem_range.mp (List.mem_filter.mp hmL).1
    have hyne := hy m (σ m) hm1 (hσ1 m hm1) (hσanti m hm1)
    by_cases hflip : (ctr faces m).y < (ctr faces (σ m)).y
    · refine ⟨σ m, hσ1 m hm1, ?_, ?_⟩
      · show d10Flip faces (m, some (σ m)) = (σ m, some (σ (σ m)))
        rw [hσσ m hm1]
        simp [d10Flip, hflip]
      · rw [hσσ m hm1]
        exact hflip
    · refine ⟨m, hm1, ?_, lt_of_le_of_ne (not_lt.mp hflip) (Ne.symm hyne)⟩
      show d10Flip faces (m, some (σ m)) = (m, some (σ m))
      simp [d10Flip, hflip]
  have hplen : (d10Pairs faces).length = 5 := by
    have hall : ∀ p ∈ buildPairs faces, p.2.isSome = true := by
      rw [hP]
      intro p hp
      obtain ⟨m, _, rfl⟩ := List.mem_map.mp hp
      rfl
    have h1 := slotsOf_length_all_some _ hall
    rw [slots_buildPairs_length] at h1
    have h2 : (d10Pairs faces).length = (buildPairs faces).length := by
      unfold d10Pairs
      rw [List.length_insertionSort, List.length_map]
    omega
  have hvalAt : ∀ t, ∀ ht : t < (d10Pairs faces).length, ∃ a, a < faces.length ∧
      (d10Pairs faces)[t] = (a, some (σ a)) ∧
      (ctr faces (σ a)).y < (ctr faces a).y ∧
      (computeFaceNumbers faces 10).getD a 0 = 2 * (t : ℤ) + 1 ∧
      (computeFaceNumbers faces 10).getD (σ a) 0 = 11 - (2 * (t : ℤ) + 1) := by
    intro t ht
    obtain ⟨a, ha, hq, hy2⟩ := hstruct _ (List.getElem_mem ht)
    refine ⟨a, ha, hq, hy2, ?_, ?_⟩
    · rw [hcfn, List.getD_eq_getElem?_getD,
        assignLoop_left_of_getElem? _ _ _ _ _ t a (some (σ a))
          (by rw [List.getElem?_eq_getElem ht, hq]) hnd hlenR]
      simp
    · rw [hcfn, List.getD_eq_getElem?_getD,
        assignLoop_partner_of_getElem? _ _ _ _ _ t a (σ a)
          (by rw [List.getElem?_eq_getElem ht, hq]) hnd hlenR]
      simp
  have hfindTop : ∀ i, i < faces.length → (ctr faces (σ i)).y < (ctr faces i).y →
      ∃ t, ∃ ht : t < (d10Pairs faces).length,
        (d10Pairs faces)[t] = (i, some (σ i)) := by
    intro i hi hyi
    have hmem : i ∈ slotsOf (d10Pairs faces) :=
      List.count_pos_iff.mp (by rw [count_slotsOf_d10Pairs, if_pos hi]; omega)
    unfold slotsOf at hmem
    obtain ⟨q, hqP, hiq⟩ := List.mem_flatMap.mp hmem
    obtain ⟨a, ha, hqa, hya⟩ := hstruct q hqP
    obtain ⟨t, ht, hqt⟩ := List.mem_iff_getElem.mp hqP
    rw [hqa] at hiq
    simp only [Option.toList_some, List.mem_cons, List.mem_singleton,
      List.not_mem_nil, or_false] at hiq
    rcases hiq with rfl | rfl
    · exact ⟨t, ht, by rw [hqt, hqa]⟩
    · exfalso
      have hσi : σ (σ a) = a := hσσ a ha
      rw [hσi] at hyi
      exact absurd hyi (lt_asymm hya)
  refine ⟨?_, ?_, ?_⟩
  · intro i j hi hj hanti hyij
    have hij : j = σ i := huniq i j (by omega) (by omega) hanti
    subst hij
    obtain ⟨t, ht, hqt⟩ := hfindTop i (by omega) hyij
    obtain ⟨a, ha, hqa, hya, hv1, hv2⟩ := hvalAt t ht
    have hpair := hqt.symm.trans hqa
    injection hpair with h1 h2
    rw [← h1] at hv1 hv2
    have ht5 : t < 5 := by omega
    constructor
    · rw [hv1]
      simp only [List.mem_cons, List.mem_singleton, List.not_mem_nil, or_false]
      omega
    · rw [hv1, hv2]
  · have hattain : ∀ t : ℕ, t < 5 → ∃ i j, i < 10 ∧ j < 10 ∧ anti faces i j ∧
        (ctr faces j).y < (ctr faces i).y ∧
        (computeFaceNumbers faces 10).getD i 0 = 2 * (t : ℤ) + 1 := by
      intro t ht5
      have ht : t < (d10Pairs faces).length := by omega
      obtain ⟨a, ha, _, hy2, hv1, _⟩ := hvalAt t ht
      exact ⟨a, σ a, by omega, by have := hσ1 a ha; omega, hσanti a ha, hy2, hv1⟩
    intro v hv
    simp only [List.mem_cons, List.mem_singleton, List.not_mem_nil, or_false] at hv
    rcases hv with rfl | rfl | rfl | rfl | rfl
    · obtain ⟨i, j, h1, h2, h3, h4, h5⟩ := hattain 0 (by norm_num)
      exact ⟨i, j, h1, h2, h3, h4, by rw [h5]; norm_num⟩
    · obtain ⟨i, j, h1, h2, h3, h4, h5⟩ := hattain 1 (by norm_num)
      exact ⟨i, j, h1, h2, h3, h4, by rw [h5]; norm_num⟩
    · obtain ⟨i, j, h1, h2, h3, h4, h5⟩ := hattain 2 (by norm_num)
      exact ⟨i, j, h1, h2, h3, h4, by rw [h5]; norm_num⟩
    · obtain ⟨i, j, h1, h2, h3, h4, h5⟩ := hattain 3 (by norm_num)
      exact ⟨i, j, h1, h2, h3, h4, by rw [h5]; norm_num⟩
    · obtain ⟨i, j, h1, h2, h3, h4, h5⟩ := hattain 4 (by norm_num)
      exact ⟨i, j, h1, h2, h3, h4, by rw [h5]; norm_num⟩
  · intro i j i2 j2 hi hj hi2 hj2 hanti hanti2 hyi hyi2 haz
    have hij : j = σ i := huniq i j (by omega) (by omega) hanti
    subst hij
    have hij2 : j2 = σ i2 := huniq i2 j2 (by omega) (by omega) hanti2
    subst hij2
    obtain ⟨t, ht, hqt⟩ := hfindTop i (by omega) hyi
    obtain ⟨t2, ht2, hqt2⟩ := hfindTop i2 (by omega) hyi2
    obtain ⟨a, ha, hqa, _, hv1, _⟩ := hvalAt t ht
    obtain ⟨a2, ha2, hqa2, _, hv12, _⟩ := hvalAt t2 ht2
    have hpair := hqt.symm.trans hqa
    injection hpair with h1 _
    rw [← h1] at hv1
    have hpair2 := hqt2.symm.trans hqa2
    injection hpair2 with h12 _
    rw [← h12] at hv12
    have htne : t ≠ t2 := by
      intro h
      subst h
      have heq := hqt.symm.trans hqt2
      injection heq with h3 _
      exact haz (by rw [← h3]; exact azLe_refl _ _)
    haveI instTot : IsTotal (ℕ × Option ℕ) (pairAzLe faces) :=
      ⟨fun p q => azLe_total _ _ _ _⟩
    haveI instTrans : IsTrans (ℕ × Option ℕ) (pairAzLe faces) :=
      ⟨fun p q r h1 h2 => azLe_trans _ _ _ _ _ _ h1 h2⟩
    have hsorted : List.Sorted (pairAzLe faces) (d10Pairs faces) := by
      unfold d10Pairs
      exact List.sorted_insertionSort _ _
    have hlt : t < t2 := by
      rcases Nat.lt_trichotomy t t2 with h | h | h
      · exact h
      · exact absurd h htne
      · exfalso
        have hR := List.pairwise_iff_getElem.mp hsorted t2 t ht2 ht h
        rw [hqt, hqt2] at hR
        exact haz hR
    rw [hv1, hv12]
    omega

/-- The ten example faces form a perfect anti-parallel matching. -/
theorem exFaces10_matching :
    ∀ i, i < exFaces10.length → ∃ j, j < exFaces10.length ∧ (i ≠ j ∧ anti exFaces10 i j) ∧
      ∀ k, k < exFaces10.length → i ≠ k → anti exFaces10 i k → k = j := by
  have hlen : exFaces10.length = 10 := rfl
  rw [hlen]
  intro i hi
  have step : ∀ j : ℕ, j < 10 → (i ≠ j ∧ anti exFaces10 i j) →
      (∀ k, k < 10 → i ≠ k → anti exFaces10 i k → k = j) →
      ∃ j, j < 10 ∧ (i ≠ j ∧ anti exFaces10 i j) ∧
        ∀ k, k < 10 → i ≠ k → anti exFaces10 i k → k = j :=
    fun j h1 h2 h3 => ⟨j, h1, h2, h3⟩
  interval_cases i
  · exact step 1 (by norm_num)
      ⟨by norm_num, by norm_num [anti, nrm, exFaces10, ncFace, vneg, V3.dot]⟩
      (fun k hk hne hanti => by
        interval_cases k <;>
          first
          | rfl
          | (revert hanti; norm_num [anti, nrm, exFaces10, ncFace, vneg, V3.dot]))
  · exact step 0 (by norm_num)
      ⟨by norm_num, by norm_num [anti, nrm, exFaces10, ncFace, vneg, V3.dot]⟩
      (fun k hk hne hanti => by
        interval_cases k <;>
          first
          | rfl
          | (revert hanti; norm_num [anti, nrm, exFaces10, ncFace, vneg, V3.dot]))
  · exact step 3 (by norm_num)
      ⟨by norm_num, by norm_num [anti, nrm, exFaces10, ncFace, vneg, V3.dot]⟩
      (fun k hk hne hanti => by
        interval_cases k <;>
          first
          | rfl
          | (revert hanti; norm_num [anti, nrm, exFaces10, ncFace, vneg, V3.dot]))
  · exact step 2 (by norm_num)
      ⟨by norm_num, by norm_num [anti, nrm, exFaces10, ncFace, vneg, V3.dot]⟩
      (fun k hk hne hanti => by
        interval_cases k <;>
          first
          | rfl
          | (revert hanti; norm_num [anti, nrm, exFaces10, ncFace, vneg, V3.dot]))
  · exact step 5 (by norm_num)
      ⟨by norm_num, by norm_num [anti, nrm, exFaces10, ncFace, vneg, V3.dot]⟩
      (fun k hk hne hanti => by
        interval_cases k <;>
          first
          | rfl
          | (revert hanti; norm_num [anti, nrm, exFaces10, ncFace, vneg, V3.dot]))
  · exact step 4 (by norm_num)
      ⟨by norm_num, by norm_num [anti, nrm, exFaces10, ncFace, vneg, V3.dot]⟩
      (fun k hk hne hanti => by
        interval_cases k <;>
          first
          | rfl
          | (revert hanti; norm_num [anti, nrm, exFaces10, ncFace, vneg, V3.dot]))
  · exact step 7 (by norm_num)
      ⟨by norm_num, by norm_num [anti, nrm, exFaces10, ncFace, vneg, V3.dot]⟩
      (fun k hk hne hanti => by
        interval_cases k <;>
          first
          | rfl
          | (revert hanti; norm_num [anti, nrm, exFaces10, ncFace, vneg, V3.dot]))
  · exact step 6 (by norm_num)
      ⟨by norm_num, by norm_num [anti, nrm, exFaces10, ncFace, vneg, V3.dot]⟩
      (fun k hk hne hanti => by
        interval_cases k <;>
          first
          | rfl
          | (revert hanti; norm_num [anti, nrm, exFaces10, ncFace, vneg, V3.dot]))
  · exact step 9 (by norm_num)
      ⟨by norm_num, by norm_num [anti, nrm, exFaces10, ncFace, vneg, V3.dot]⟩
      (fun k hk hne hanti => by
        interval_cases k <;>
          first
          | rfl
          | (revert hanti; norm_num [anti, nrm, exFaces10, ncFace, vneg, V3.dot]))
  · exact step 8 (by norm_num)
      ⟨by norm_num, by norm_num [anti, nrm, exFaces10, ncFace, vneg, V3.dot]⟩
      (fun k hk hne hanti => by
        interval_cases k <;>
          first
          | rfl
          | (revert hanti; norm_num [anti, nrm, exFaces10, ncFace, vneg, V3.dot]))

/-- In the ten example faces, anti-parallel partners never share a centroid
height: the even indices sit at `y = 1`, the odd ones at `y = -1`, and each
anti-parallel pair couples an even index with an odd one. -/
theorem exFaces10_ydistinct : ∀ i j, i < exFaces10.length → j < exFaces10.length →
    anti exFaces10 i j → (ctr exFaces10 i).y ≠ (ctr exFaces10 j).y := by
  have hlen : exFaces10.length = 10 := rfl
  rw [hlen]
  intro i j hi hj hanti
  by_cases hp : i % 2 = j % 2
  · exfalso
    revert hanti
    interval_cases i <;> interval_cases j <;>
      first
      | (exact absurd hp (by decide))
      | norm_num [anti, nrm, exFaces10, ncFace, vneg, V3.dot]
  · have hyv : ∀ m, m < 10 → (ctr exFaces10 m).y = if m % 2 = 0 then 1 else -1 := by
      intro m hm
      interval_cases m <;> norm_num [ctr, exFaces10, ncFace, vneg]
    rw [hyv i hi, hyv j hj]
    rcases Nat.mod_two_eq_zero_or_one i with h0 | h0 <;>
      rcases Nat.mod_two_eq_zero_or_one j with h1 | h1 <;>
        first
        | exact absurd (h0.trans h1.symm) hp
        | norm_num [h0, h1]

/-- Witness for C5 at ten concrete faces in five antipodal pairs with
distinct pair heights. -/
theorem c5_d10_numbering_witness :
    (∀ i j, i < 10 → j < 10 → anti exFaces10 i j →
      (ctr exFaces10 j).y < (ctr exFaces10 i).y →
      (computeFaceNumbers exFaces10 10).getD i 0 ∈ ([1, 3, 5, 7, 9] : List ℤ) ∧
      (computeFaceNumbers exFaces10 10).getD j 0
        = 11 - (computeFaceNumbers exFaces10 10).getD i 0) ∧
    (∀ v, v ∈ ([1, 3, 5, 7, 9] : List ℤ) → ∃ i j, i < 10 ∧ j < 10 ∧
      anti exFaces10 i j ∧
      (ctr exFaces10 j).y < (ctr exFaces10 i).y ∧
      (computeFaceNumbers exFaces10 10).getD i 0 = v) ∧
    (∀ i j i2 j2, i < 10 → j < 10 → i2 < 10 → j2 < 10 →
      anti exFaces10 i j → anti exFaces10 i2 j2 →
      (ctr exFaces10 j).y < (ctr exFaces10 i).y →
      (ctr exFaces10 j2).y < (ctr exFaces10 i2).y →
      ¬ azLe (ctr exFaces10 i2).x (ctr exFaces10 i2).z
        (ctr exFaces10 i).x (ctr exFaces10 i).z →
      (computeFaceNumbers exFaces10 10).getD i 0
        < (computeFaceNumbers exFaces10 10).getD i2 0) :=
  c5_d10_numbering exFaces10 rfl exFaces10_matching exFaces10_ydistinct

/-- The dot product of a cross product with its first factor vanishes. -/
theorem rdot_rcross_left (a b : RV3) : rdot (rcross a b) a = 0 := by
  simp only [rcross, rdot]
  ring

/-- The dot product of a cross product with its second factor vanishes. -/
theorem rdot_rcross_right (a b : RV3) : rdot (rcross a b) b = 0 := by
  simp only [rcross, rdot]
  ring

/-- If, seen from the apex `p`, the fourth vertex `w` satisfies
`w - p = t * (l - p) - (u - p)` componentwise, the triangles `(p, l, u)` and
`(p, w, l)` have equal normals. -/
theorem kite_normals_first (p l u w : RV3) (t : ℝ)
    (hx : w.x - p.x = t * (l.x - p.x) - (u.x - p.x))
    (hy : w.y - p.y = t * (l.y - p.y) - (u.y - p.y))
    (hz : w.z - p.z = t * (l.z - p.z) - (u.z - p.z)) :
    triNormal p l u = triNormal p w l := by
  simp only [triNormal, rcross, rsub]
  rw [RV3.mk.injEq]
  refine ⟨?_, ?_, ?_⟩
  · linear_combination (-(l.z - p.z)) * hy + (l.y - p.y) * hz
  · linear_combination (-(l.x - p.x)) * hz + (l.z - p.z) * hx
  · linear_combination (-(l.y - p.y)) * hx + (l.x - p.x) * hy

/-- If, seen from the apex `p`, the fourth vertex `w` satisfies
`w - p = t * (u - p) - (l - p)` componentwise, the triangles `(p, l, u)` and
`(p, u, w)` have equal normals. -/
theorem kite_normals_second (p l u w : RV3) (t : ℝ)
    (hx : w.x - p.x = t * (u.x - p.x) - (l.x - p.x))
    (hy : w.y - p.y = t * (u.y - p.y) - (l.y - p.y))
    (hz : w.z - p.z = t * (u.z - p.z) - (l.z - p.z)) :
    triNormal p l u = triNormal p u w := by
  simp only [triNormal, rcross, rsub]
  rw [RV3.mk.injEq]
  refine ⟨?_, ?_, ?_⟩
  · linear_combination (u.z - p.z) * hy + (-(u.y - p.y)) * hz
  · linear_combination (u.x - p.x) * hz + (-(u.z - p.z)) * hx
  · linear_combination (u.y - p.y) * hx + (-(u.x - p.x)) * hy

/-- Stepping to the next upper-ring index advances the azimuth cosine by
`2π/5`, up to the `2π` wrap-around at `k = 4`. -/
theorem d10_next_cos (k : ℕ) (hk : k < 5) :
    Real.cos (d10aU ((k + 1) % 5)) = Real.cos (d10aU k + 2 * (Real.pi / 5)) := by
  interval_cases k
  · show Real.cos (d10aU 1) = Real.cos (d10aU 0 + 2 * (Real.pi / 5))
    congr 1
    unfold d10aU
    push_cast
    ring
  · show Real.cos (d10aU 2) = Real.cos (d10aU 1 + 2 * (Real.pi / 5))
    congr 1
    unfold d10aU
    push_cast
    ring
  · show Real.cos (d10aU 3) = Real.cos (d10aU 2 + 2 * (Real.pi / 5))
    congr 1
    unfold d10aU
    push_cast
    ring
  · show Real.cos (d10aU 4) = Real.cos (d10aU 3 + 2 * (Real.pi / 5))
    congr 1
    unfold d10aU
    push_cast
    ring
  · show Real.cos (d10aU 0) = Real.cos (d10aU 4 + 2 * (Real.pi / 5))
    unfold d10aU
    rw [show ((0 : ℕ) : ℝ) * 2 * Real.pi / 5 = 0 by push_cast; ring,
      show ((4 : ℕ) : ℝ) * 2 * Real.pi / 5 + 2 * (Real.pi / 5) = 2 * Real.pi by
        push_cast; ring,
      Real.cos_zero, Real.cos_two_pi]

/-- Stepping to the next upper-ring index advances the azimuth sine by
`2π/5`, up to the `2π` wrap-around at `k = 4`. -/
theorem d10_next_sin (k : ℕ) (hk : k < 5) :
    Real.sin (d10aU ((k + 1) % 5)) = Real.sin (d10aU k + 2 * (Real.pi / 5)) := by
  interval_cases k
  · show Real.sin (d10aU 1) = Real.sin (d10aU 0 + 2 * (Real.pi / 5))
    congr 1
    unfold d10aU
    push_cast
    ring
  · show Real.sin (d10aU 2) = Real.sin (d10aU 1 + 2 * (Real.pi / 5))
    congr 1
    unfold d10aU
    push_cast
    ring
  · show Real.sin (d10aU 3) = Real.sin (d10aU 2 + 2 * (Real.pi / 5))
    congr 1
    unfold d10aU
    push_cast
    ring
  · show Real.sin (d10aU 4) = Real.sin (d10aU 3 + 2 * (Real.pi / 5))
    congr 1
    unfold d10aU
    push_cast
    ring
  · show Real.sin (d10aU 0) = Real.sin (d10aU 4 + 2 * (Real.pi / 5))
    unfold d10aU
    rw [show ((0 : ℕ) : ℝ) * 2 * Real.pi / 5 = 0 by push_cast; ring,
      show ((4 : ℕ) : ℝ) * 2 * Real.pi / 5 + 2 * (Real.pi / 5) = 2 * Real.pi by
        push_cast; ring,
      Real.sin_zero, Real.sin_two_pi]

/-- C8: `createD10Geometry` places the poles at `(0, ±radius, 0)` with
`H = radius`, puts the two five-vertex rings at heights `±h` with the lower
ring rotated by `π/5` (36 degrees), chooses the ring height by
`h/H = (1 - cos 36°)/(1 + cos 36°)`, and under exactly that ratio the four
vertices of each of the ten kite faces are coplanar: the two triangles
emitted for the top kite and for the bottom kite of index `k` have zero
scalar triple product and equal normals. -/
theorem c8_d10_kite_planarity (radius : ℝ) (k : ℕ) (hk : k < 5) :
    d10top radius = ⟨0, radius, 0⟩ ∧
    d10bot radius = ⟨0, -radius, 0⟩ ∧
    (d10upper radius k).y = d10h radius ∧
    (d10lower radius k).y = -d10h radius ∧
    d10aL k = d10aU k + Real.pi / 5 ∧
    d10h radius * (1 + Real.cos (Real.pi / 5))
      = radius * (1 - Real.cos (Real.pi / 5)) ∧
    rtriple (rsub (d10lower radius k) (d10top radius))
      (rsub (d10upper radius k) (d10top radius))
      (rsub (d10upper radius ((k + 1) % 5)) (d10top radius)) = 0 ∧
    triNormal (d10top radius) (d10lower radius k) (d10upper radius k)
      = triNormal (d10top radius) (d10upper radius ((k + 1) % 5))
          (d10lower radius k) ∧
    rtriple (rsub (d10lower radius k) (d10bot radius))
      (rsub (d10upper radius ((k + 1) % 5)) (d10bot radius))
      (rsub (d10lower radius ((k + 1) % 5)) (d10bot radius)) = 0 ∧
    triNormal (d10bot radius) (d10lower radius k)
        (d10upper radius ((k + 1) % 5))
      = triNormal (d10bot radius) (d10upper radius ((k + 1) % 5))
          (d10lower radius ((k + 1) % 5)) := by
  have hπ := Real.pi_pos
  have hcpos : 0 < Real.cos (Real.pi / 5) := by
    apply Real.cos_pos_of_mem_Ioo
    constructor
    · linarith
    · linarith
  have h1c : (1 : ℝ) + Real.cos (Real.pi / 5) ≠ 0 := by linarith
  have hdel : (d10h radius - radius)
      + Real.cos (Real.pi / 5) * (d10h radius + radius) = 0 := by
    unfold d10h d10H
    field_simp
    ring
  have hpy : Real.sin (Real.pi / 5) ^ 2 + Real.cos (Real.pi / 5) ^ 2 = 1 :=
    Real.sin_sq_add_cos_sq _
  have hcosL : Real.cos (d10aL k)
      = Real.cos (d10aU k) * Real.cos (Real.pi / 5)
        - Real.sin (d10aU k) * Real.sin (Real.pi / 5) := by
    unfold d10aL
    exact Real.cos_add _ _
  have hsinL : Real.sin (d10aL k)
      = Real.sin (d10aU k) * Real.cos (Real.pi / 5)
        + Real.cos (d10aU k) * Real.sin (Real.pi / 5) := by
    unfold d10aL
    exact Real.sin_add _ _
  have hcosN : Real.cos (d10aU ((k + 1) % 5))
      = Real.cos (d10aU k) * (2 * Real.cos (Real.pi / 5) ^ 2 - 1)
        - Real.sin (d10aU k)
            * (2 * Real.sin (Real.pi / 5) * Real.cos (Real.pi / 5)) := by
    rw [d10_next_cos k hk, Real.cos_add, Real.cos_two_mul, Real.sin_two_mul]
  have hsinN : Real.sin (d10aU ((k + 1) % 5))
      = Real.sin (d10aU k) * (2 * Real.cos (Real.pi / 5) ^ 2 - 1)
        + Real.cos (d10aU k)
            * (2 * Real.sin (Real.pi / 5) * Real.cos (Real.pi / 5)) := by
    rw [d10_next_sin k hk, Real.sin_add, Real.cos_two_mul, Real.sin_two_mul]
  have hcosL2 : Real.cos (d10aL ((k + 1) % 5))
      = (Real.cos (d10aU k) * (2 * Real.cos (Real.pi / 5) ^ 2 - 1)
          - Real.sin (d10aU k)
              * (2 * Real.sin (Real.pi / 5) * Real.cos (Real.pi / 5)))
            * Real.cos (Real.pi / 5)
        - (Real.sin (d10aU k) * (2 * Real.cos (Real.pi / 5) ^ 2 - 1)
          + Real.cos (d10aU k)
              * (2 * Real.sin (Real.pi / 5) * Real.cos (Real.pi / 5)))
            * Real.sin (Real.pi / 5) := by
    unfold d10aL
    rw [Real.cos_add, hcosN, hsinN]
  have hsinL2 : Real.sin (d10aL ((k + 1) % 5))
      = (Real.sin (d10aU k) * (2 * Real.cos (Real.pi / 5) ^ 2 - 1)
          + Real.cos (d10aU k)
              * (2 * Real.sin (Real.pi / 5) * Real.cos (Real.pi / 5)))
            * Real.cos (Real.pi / 5)
        + (Real.cos (d10aU k) * (2 * Real.cos (Real.pi / 5) ^ 2 - 1)
          - Real.sin (d10aU k)
              * (2 * Real.sin (Real.pi / 5) * Real.cos (Real.pi / 5)))
            * Real.sin (Real.pi / 5) := by
    unfold d10aL
    rw [Real.sin_add, hcosN, hsinN]
  have htx : (d10upper radius ((k + 1) % 5)).x - (d10top radius).x
      = (2 * Real.cos (Real.pi / 5))
          * ((d10lower radius k).x - (d10top radius).x)
        - ((d10upper radius k).x - (d10top radius).x) := by
    simp only [d10upper, d10lower, d10top]
    rw [hcosN, hcosL]
    ring
  have hty : (d10upper radius ((k + 1) % 5)).y - (d10top radius).y
      = (2 * Real.cos (Real.pi / 5))
          * ((d10lower radius k).y - (d10top radius).y)
        - ((d10upper radius k).y - (d10top radius).y) := by
    simp only [d10upper, d10lower, d10top, d10H]
    linear_combination 2 * hdel
  have htz : (d10upper radius ((k + 1) % 5)).z - (d10top radius).z
      = (2 * Real.cos (Real.pi / 5))
          * ((d10lower radius k).z - (d10top radius).z)
        - ((d10upper radius k).z - (d10top radius).z) := by
    simp only [d10upper, d10lower, d10top]
    rw [hsinN, hsinL]
    ring
  have h6 : triNormal (d10top radius) (d10lower radius k) (d10upper radius k)
      = triNormal (d10top radius) (d10upper radius ((k + 1) % 5))
          (d10lower radius k) :=
    kite_normals_first _ _ _ _ (2 * Real.cos (Real.pi / 5)) htx hty htz
  have hbx : (d10lower radius ((k + 1) % 5)).x - (d10bot radius).x
      = (2 * Real.cos (Real.pi / 5))
          * ((d10upper radius ((k + 1) % 5)).x - (d10bot radius).x)
        - ((d10lower radius k).x - (d10bot radius).x) := by
    simp only [d10upper, d10lower, d10bot]
    rw [hcosL2, hcosN, hcosL]
    linear_combination (-2) * d10r radius * Real.cos (Real.pi / 5)
      * Real.cos (d10aU k) * hpy
  have hby : (d10lower radius ((k + 1) % 5)).y - (d10bot radius).y
      = (2 * Real.cos (Real.pi / 5))
          * ((d10upper radius ((k + 1) % 5)).y - (d10bot radius).y)
        - ((d10lower radius k).y - (d10bot radius).y) := by
    simp only [d10upper, d10lower, d10bot, d10H]
    linear_combination (-2) * hdel
  have hbz : (d10lower radius ((k + 1) % 5)).z - (d10bot radius).z
      = (2 * Real.cos (Real.pi / 5))
          * ((d10upper radius ((k + 1) % 5)).z - (d10bot radius).z)
        - ((d10lower radius k).z - (d10bot radius).z) := by
    simp only [d10upper, d10lower, d10bot]
    rw [hsinL2, hsinN, hsinL]
    linear_combination (-2) * d10r radius * Real.cos (Real.pi / 5)
      * Real.sin (d10aU k) * hpy
  have h8 : triNormal (d10bot radius) (d10lower radius k)
        (d10upper radius ((k + 1) % 5))
      = triNormal (d10bot radius) (d10upper radius ((k + 1) % 5))
          (d10lower radius ((k + 1) % 5)) :=
    kite_normals_second _ _ _ _ (2 * Real.cos (Real.pi / 5)) hbx hby hbz
  refine ⟨rfl, rfl, rfl, rfl, rfl, by linear_combination hdel, ?_, h6, ?_, h8⟩
  · show rdot (triNormal (d10top radius) (d10lower radius k)
        (d10upper radius k))
      (rsub (d10upper radius ((k + 1) % 5)) (d10top radius)) = 0
    rw [h6]
    exact rdot_rcross_left (rsub (d10upper radius ((k + 1) % 5)) (d10top radius))
      (rsub (d10lower radius k) (d10top radius))
  · show rdot (triNormal (d10bot radius) (d10lower radius k)
        (d10upper radius ((k + 1) % 5)))
      (rsub (d10lower radius ((k + 1) % 5)) (d10bot radius)) = 0
    rw [h8]
    exact rdot_rcross_right (rsub (d10upper radius ((k + 1) % 5)) (d10bot radius))
      (rsub (d10lower radius ((k + 1) % 5)) (d10bot radius))

/-- Witness for C8 at `radius = 1` and kite index `k = 0`. -/
theorem c8_d10_kite_planarity_witness :
    d10top 1 = ⟨0, 1, 0⟩ ∧
    d10bot 1 = ⟨0, -1, 0⟩ ∧
    (d10upper 1 0).y = d10h 1 ∧
    (d10lower 1 0).y = -d10h 1 ∧
    d10aL 0 = d10aU 0 + Real.pi / 5 ∧
    d10h 1 * (1 + Real.cos (Real.pi / 5))
      = 1 * (1 - Real.cos (Real.pi / 5)) ∧
    rtriple (rsub (d10lower 1 0) (d10top 1))
      (rsub (d10upper 1 0) (d10top 1))
      (rsub (d10upper 1 ((0 + 1) % 5)) (d10top 1)) = 0 ∧
    triNormal (d10top 1) (d10lower 1 0) (d10upper 1 0)
      = triNormal (d10top 1) (d10upper 1 ((0 + 1) % 5)) (d10lower 1 0) ∧
    rtriple (rsub (d10lower 1 0) (d10bot 1))
      (rsub (d10upper 1 ((0 + 1) % 5)) (d10bot 1))
      (rsub (d10lower 1 ((0 + 1) % 5)) (d10bot 1)) = 0 ∧
    triNormal (d10bot 1) (d10lower 1 0) (d10upper 1 ((0 + 1) % 5))
      = triNormal (d10bot 1) (d10upper 1 ((0 + 1) % 5))
          (d10lower 1 ((0 + 1) % 5)) :=
  c8_d10_kite_planarity 1 0 (by norm_num)

/-- C4: for every face list of length 6, `computeFaceNumbers(faces, 6)`
returns exactly the fixed sequence `[1, 6, 2, 5, 3, 4]` regardless of the face
geometry, and the entries at positions `(0,1)`, `(2,3)` and `(4,5)` each sum
to 7. -/
theorem c4_d6_fixed_sequence (faces : List Face) (h6 : faces.length = 6) :
    computeFaceNumbers faces 6 = [1, 6, 2, 5, 3, 4] ∧
    (computeFaceNumbers faces 6).getD 0 0 + (computeFaceNumbers faces 6).getD 1 0 = 7 ∧
    (computeFaceNumbers faces 6).getD 2 0 + (computeFaceNumbers faces 6).getD 3 0 = 7 ∧
    (computeFaceNumbers faces 6).getD 4 0 + (computeFaceNumbers faces 6).getD 5 0 = 7 := by
  refine ⟨rfl, rfl, rfl, rfl⟩

/-- Witness for C4 at a concrete six-face list. -/
theorem c4_d6_fixed_sequence_witness :
    computeFaceNumbers exFaces6 6 = [1, 6, 2, 5, 3, 4] := by
  exact (c4_d6_fixed_sequence exFaces6 (by decide)).1

/-- C10, counterexample to the claim as stated: the string `"toString"` does
not start with `#` and is not one of the eight Tailwind entries, yet
`TAILWIND_MAP["toString"]` finds the truthy function inherited from
`Object.prototype`, so line 38 of the source returns that function — not the
gray default `0x6b7280`. -/
theorem c10_counterexample :
    ("toString" : String).data.head? ≠ some '#' ∧
    TAILWIND_MAP.find? (fun p => p.1 == "toString") = none ∧
    parseColor (.str "toString") = JSVal.fn "toString" ∧
    parseColor (.str "toString") ≠ JSVal.num GRAY_DEFAULT := by
  refine ⟨by decide, rfl, rfl, by decide⟩

/-- C10 as amended: `parseColor` is total over numbers, strings and anything
else, but the string fallback is what JavaScript property lookup makes it:
a number passes through; a `#`-string is parsed as hexadecimal (`NaN` when
no digits follow); each of the eight own Tailwind entries maps to its hex
value; a string naming a property inherited from `Object.prototype` returns
that inherited truthy function instead of a color; and every other string,
as well as the non-number non-string case, returns the gray default
`0x6b7280`. -/
theorem c10_amended_parseColor_total :
    (∀ v : ℚ, parseColor (.num v) = .num v) ∧
    (∀ s : String, s.data.head? = some '#' →
      parseColor (.str s) = numOrNan (jsParseIntHex (s.data.drop 1))) ∧
    (∀ p ∈ TAILWIND_MAP, parseColor (.str p.1) = .num p.2) ∧
    (∀ s : String, s.data.head? ≠ some '#' →
      TAILWIND_MAP.find? (fun p => p.1 == s) = none → s ∈ OBJECT_PROTO_KEYS →
      parseColor (.str s) = .fn s) ∧
    (∀ s : String, s.data.head? ≠ some '#' →
      TAILWIND_MAP.find? (fun p => p.1 == s) = none → s ∉ OBJECT_PROTO_KEYS →
      parseColor (.str s) = .num GRAY_DEFAULT) ∧
    parseColor .other = .num GRAY_DEFAULT := by
  refine ⟨fun v => rfl, fun s hs => by simp [parseColor, hs], ?_, ?_, ?_, rfl⟩
  · intro p hp
    fin_cases hp <;> rfl
  · intro s hs hf hm
    simp only [parseColor, twGet, hf, if_neg hs]
    rw [if_pos hm]
  · intro s hs hf hm
    simp only [parseColor, twGet, hf, if_neg hs]
    rw [if_neg hm]

/-- Witness for the amended C10 at one concrete input per branch, including
the inherited `Object.prototype` property `"toString"`. -/
theorem c10_amended_parseColor_total_witness :
    parseColor (.num 7) = JSVal.num 7 ∧
    parseColor (.str "#ff") = JSVal.num 255 ∧
    parseColor (.str "bg-red-500") = JSVal.num 0xef4444 ∧
    parseColor (.str "toString") = JSVal.fn "toString" ∧
    parseColor (.str "plain") = JSVal.num GRAY_DEFAULT ∧
    parseColor .other = JSVal.num GRAY_DEFAULT := by
  refine ⟨c10_amended_parseColor_total.1 7, ?_, ?_, ?_, ?_,
    c10_amended_parseColor_total.2.2.2.2.2⟩
  · exact (c10_amended_parseColor_total.2.1 "#ff" rfl).trans rfl
  · exact c10_amended_parseColor_total.2.2.1 ("bg-red-500", 0xef4444)
      (by simp [TAILWIND_MAP])
  · exact c10_amended_parseColor_total.2.2.2.1 "toString" (by decide) rfl (by decide)
  · exact c10_amended_parseColor_total.2.2.2.2.1 "plain" (by decide) rfl (by decide)

/-- C6: `settleQuat` returns the absent result (`none`) exactly when the mesh
carries no face data, no number-to-face table, or the requested value maps to
no valid face index; in particular it never throws (the embedding is a total
function) and, reading the mesh purely, leaves it unchanged. -/
theorem c6_settleQuat_absent (sq : ℚ → ℚ) (mesh : DieMesh) (result : ℤ) (sides : ℕ) :
    settleQuat sq mesh result sides = none ↔
      (mesh.faces = none ∨ mesh.numberToFace = none ∨
        ∃ faces ntf, mesh.faces = some faces ∧ mesh.numberToFace = some ntf ∧
          (jsLookup ntf result = none ∨
            ∃ fi, jsLookup ntf result = some fi ∧ faces.length ≤ fi)) := by
  obtain ⟨mf, mn⟩ := mesh
  cases mf with
  | none => simp [settleQuat]
  | some faces =>
    cases mn with
    | none => simp [settleQuat]
    | some ntf =>
      cases hl : jsLookup ntf result with
      | none => simp [settleQuat, hl]
      | some fi =>
        by_cases hlt : fi < faces.length <;> simp [settleQuat, hl, hlt] <;> omega

/-- C7, counterexample to the claim as stated: for the unit normal
`(0, -1, 0)` the source switches the reference to `(0, 0, 1)` (it tests
`Math.abs(n.dot(ref)) > 0.99`), while the claimed rule "switch only when the
dot product exceeds 0.99" keeps `(0, 1, 0)`. -/
theorem c7_counterexample :
    V3.dot ⟨0, -1, 0⟩ ⟨0, -1, 0⟩ = 1 ∧
    settleRef ⟨0, -1, 0⟩ = ⟨0, 0, 1⟩ ∧
    settleRefClaim ⟨0, -1, 0⟩ = ⟨0, 1, 0⟩ ∧
    settleRef ⟨0, -1, 0⟩ ≠ settleRefClaim ⟨0, -1, 0⟩ := by
  have h1 : settleRef ⟨0, -1, 0⟩ = ⟨0, 0, 1⟩ := by
    norm_num [settleRef, jsAbs, V3.dot]
  have h2 : settleRefClaim ⟨0, -1, 0⟩ = ⟨0, 1, 0⟩ := by
    norm_num [settleRefClaim, V3.dot]
  refine ⟨by norm_num [V3.dot], h1, h2, ?_⟩
  rw [h1, h2]
  intro h
  cases h

/-- C7 as amended: the reference vector is `(0,1,0)` unless the unit normal is
nearly parallel or anti-parallel to it (`|dot| > 0.99`), in which case
`(0,0,1)` is used; consequently for every unit normal the projected reference
vector and its cross product with the normal are non-zero, so the reference
path of the basis construction is never degenerate. -/
theorem c7_amended_ref_nondegenerate (n : V3) (hu : V3.dot n n = 1) :
    refUpRaw n ≠ V3.zero ∧ V3.cross (refUpRaw n) n ≠ V3.zero := by
  obtain ⟨nx, ny, nz⟩ := n
  have hu' : nx * nx + ny * ny + nz * nz = 1 := by simpa [V3.dot] using hu
  have hpos : 0 < V3.dot (refUpRaw ⟨nx, ny, nz⟩) (refUpRaw ⟨nx, ny, nz⟩) := by
    unfold refUpRaw settleRef
    rw [jsAbs_eq_abs]
    by_cases hy : |V3.dot ⟨nx, ny, nz⟩ ⟨0, 1, 0⟩| > 99 / 100
    · simp only [if_pos hy]
      have hy' : (99 : ℚ) / 100 < |ny| := by
        simpa [V3.dot] using hy
      have hy2 : (99 / 100 : ℚ) ^ 2 < ny ^ 2 := by
        calc (99 / 100 : ℚ) ^ 2 < |ny| ^ 2 := by nlinarith [abs_nonneg ny]
          _ = ny ^ 2 := sq_abs ny
      simp only [V3.dot, V3.addScaled]
      nlinarith [sq_nonneg nx, sq_nonneg (nx * nz), sq_nonneg (ny * nz), hy2, hu']
    · simp only [if_neg hy]
      have hy' : |ny| ≤ 99 / 100 := by
        have := not_lt.mp hy
        simpa [V3.dot] using this
      obtain ⟨h1, h2⟩ := abs_le.mp hy'
      simp only [V3.dot, V3.addScaled]
      nlinarith [sq_nonneg nx, sq_nonneg nz, sq_nonneg (nx * ny), sq_nonneg (nz * ny)]
  have horth : V3.dot (refUpRaw ⟨nx, ny, nz⟩) ⟨nx, ny, nz⟩ = 0 := by
    unfold refUpRaw
    rcases settleRef ⟨nx, ny, nz⟩ with ⟨rx, ry, rz⟩
    simp only [V3.dot, V3.addScaled]
    linear_combination (-(rx * nx + ry * ny + rz * nz)) * hu'
  refine ⟨V3.ne_zero_of_dot_pos hpos, V3.ne_zero_of_dot_pos ?_⟩
  rw [V3.dot_cross_self, hu, horth]
  linarith

/-- Witness for the amended C7 at a concrete unit normal. -/
theorem c7_amended_ref_nondegenerate_witness :
    V3.dot ⟨3/5, 4/5, 0⟩ ⟨3/5, 4/5, 0⟩ = 1 ∧
    (refUpRaw ⟨3/5, 4/5, 0⟩ ≠ V3.zero ∧
      V3.cross (refUpRaw ⟨3/5, 4/5, 0⟩) ⟨3/5, 4/5, 0⟩ ≠ V3.zero) :=
  ⟨by norm_num [V3.dot], c7_amended_ref_nondegenerate _ (by norm_num [V3.dot])⟩

end Dice
